import Mathlib

/-!
# Tic-tac-toe backend: game-state engine

A shallow embedding of `src/routes/game.js` and `src/models/Game.js`.

* Identifiers (`_id`, `player1`, `player2`, `req.userId`, `rematch.requestedBy`) are the
  strings that `ObjectId.toString()` yields; they are taken to be well-formed, so the casts
  done by the document layer succeed.
* A stored `position` is an integer (`Number` in the schema). The `position` of a move
  request is the JSON value of `req.body.position`: a number with an integer value, a string
  or a boolean. The route compares it with `===` and the schema casts it to a Number when
  the move is pushed; the routes never test its range. A missing or null position (stored
  as null) and numbers or strings with a non-integer value are outside the model.
* `player` and `winner` are strings, with JavaScript truthiness: `null` and `''` are falsy.
* `status` is the two-valued enum of the schema.
* The store is the list of persisted documents; `findById` and `save` are its only
  operations. The only `catch` branch (status 500) that is modelled is the one taken when
  the pushed position cannot be cast to a Number; otherwise the store is taken not to throw.
-/

namespace TicTacToe

abbrev UserId := String
abbrev GameId := String

/-- One element of `moves` in the schema: `{ position: Number, player: String }`. -/
structure Move where
  position : Int
  player : String
deriving DecidableEq, Repr

/-- Schema enum `['In Progress', 'Completed']`. -/
inductive Status where
  | InProgress
  | Completed
deriving DecidableEq, Repr

/-- Sub-document `rematch`; `requestedBy` is `none` when null or undefined. -/
structure Rematch where
  requestedBy : Option UserId
  accepted : Bool
deriving DecidableEq, Repr

/-- Document of the `Game` model (`src/models/Game.js`). -/
structure Game where
  _id : GameId
  player1 : UserId
  player2 : UserId
  moves : List Move
  winner : Option String
  status : Status
  rematch : Rematch
deriving DecidableEq, Repr

/-- The board built by `checkWin`: a cell holds the player string written there, or `none`
(null or undefined). -/
abbrev Board := Int → Option String

/-- JavaScript truthiness of a value that is a string or null. -/
def truthy : Option String → Bool
  | some s => s != ""
  | none => false

/-- The table `winningCombinations` of `checkWin`, in source order. -/
def winningCombinations : List (Int × Int × Int) :=
  [ (0, 1, 2), (3, 4, 5), (6, 7, 8),
    (0, 3, 6), (1, 4, 7), (2, 5, 8),
    (0, 4, 8), (2, 4, 6) ]

/-- The initial board `Array(9).fill(null)`. -/
def emptyBoard : Board := fun _ => none

/-- The assignment `board[move.position] = move.player`. -/
def setCell (board : Board) (move : Move) : Board :=
  fun i => if i = move.position then some move.player else board i

/-- The board after `moves.forEach(move => board[move.position] = move.player)`. -/
def buildBoard (moves : List Move) : Board :=
  moves.foldl setCell emptyBoard

/-- The test of one combination:
`board[a] && board[a] === board[b] && board[a] === board[c]`. -/
def comboMatches (board : Board) (combo : Int × Int × Int) : Bool :=
  truthy (board combo.1) && (board combo.1 == board combo.2.1)
    && (board combo.1 == board combo.2.2)

/-- The `for (const combo of winningCombinations)` loop with its early `return board[a]`,
and the final `return null`. -/
def checkCombos (board : Board) : List (Int × Int × Int) → Option String
  | [] => none
  | combo :: rest =>
    if comboMatches board combo then board combo.1 else checkCombos board rest

/-- Function `checkWin(moves)`. -/
def checkWin (moves : List Move) : Option String :=
  checkCombos (buildBoard moves) winningCombinations

/-- What a route hands to `res`: `res.status(s).send(text)` or `res.status(s).json(...)`. -/
inductive Response where
  | send (status : Nat) (text : String)
  | json (status : Nat) (game : Game)
  | jsonMessage (status : Nat) (message : String) (game : Game)
  | jsonRematch (status : Nat) (rematchRequestedBy : Option UserId) (rematchAccepted : Bool)
  | jsonGames (status : Nat) (games : List Game)
deriving DecidableEq, Repr

/-- The persisted documents. -/
abbrev Store := List Game

/-- Lookup `Game.findById(gameId)`. -/
def findById (db : Store) (gameId : GameId) : Option Game :=
  db.find? (fun g => g._id == gameId)

/-- Call `game.save()` on a document loaded from the store: the document with that `_id` is
replaced. -/
def save (db : Store) (game : Game) : Store :=
  db.map (fun g => if g._id = game._id then game else g)

/-- Constructor `new Game({ player1, player2 })` with the schema defaults; `newId` is the identifier the
document layer generates. -/
def newGame (newId : GameId) (player1 player2 : UserId) : Game :=
  { _id := newId, player1 := player1, player2 := player2, moves := [], winner := none,
    status := Status.InProgress, rematch := { requestedBy := none, accepted := false } }

/-- Route `POST /start`. -/
def postStart (db : Store) (newId : GameId) (userId : UserId) (opponentId : Option UserId) :
    Store × Response :=
  match opponentId with
  | none => (db, Response.send 400 "Opponent ID is required")
  | some opp =>
    if opp = "" then (db, Response.send 400 "Opponent ID is required")
    else
      let g := newGame newId userId opp
      (db ++ [g], Response.json 201 g)

/-- The JSON value received as `req.body.position`. -/
inductive JsValue where
  | number (n : Int)
  | string (s : String)
  | boolean (b : Bool)
deriving DecidableEq, Repr

/-- The test `move.position === position` of a stored Number against the request value:
strict equality holds only for a number of the same value. -/
def strictEquals (stored : Int) : JsValue → Bool
  | JsValue.number n => stored == n
  | JsValue.string _ => false
  | JsValue.boolean _ => false

/-- The value of a run of decimal digits, `none` when a character is not a digit. -/
def digitsValue : List Char → Nat → Option Nat
  | [], acc => some acc
  | c :: cs, acc =>
    if c.isDigit then digitsValue cs (acc * 10 + (c.toNat - 48)) else none

/-- The characters of a string without leading and trailing white space. -/
def trimChars (cs : List Char) : List Char :=
  ((cs.dropWhile Char.isWhitespace).reverse.dropWhile Char.isWhitespace).reverse

/-- The signed decimal integer written by the characters, if any. -/
def signedDecimal : List Char → Option Int
  | [] => none
  | c :: cs =>
    if c = '-' then
      if cs = [] then none else (digitsValue cs 0).map (fun n => -(n : Int))
    else if c = '+' then
      if cs = [] then none else (digitsValue cs 0).map (fun n => (n : Int))
    else (digitsValue (c :: cs) 0).map (fun n => (n : Int))

/-- Conversion `Number(s)` of a string, for the strings it reads as a decimal integer:
optional white space around an optionally signed run of digits, and 0 for a string of white
space only. Every other string gives `none`: `Number` reads it as NaN, or it is outside the
model (the empty string, which the cast stores as null, and hexadecimal, fractional or
exponent forms). -/
def numberOfString (s : String) : Option Int :=
  if s.data = [] then none
  else if trimChars s.data = [] then some 0
  else signedDecimal (trimChars s.data)

/-- The cast of the schema type `Number` (`position: Number`, Game.js line 6) applied to the
pushed position: a number is kept, a boolean becomes 1 or 0, a string is converted by
`Number`; `none` is a cast failure. -/
def castNumber : JsValue → Option Int
  | JsValue.number n => some n
  | JsValue.string s => numberOfString s
  | JsValue.boolean b => some (if b then 1 else 0)

/-- The turn: `game.moves.length % 2 === 0 ? 'Player1' : 'Player2'`. -/
def currentPlayer (game : Game) : String :=
  if game.moves.length % 2 = 0 then "Player1" else "Player2"

/-- The push `game.moves.push({ position, player: currentPlayer })`, with the position already
cast to a Number. -/
def pushMove (game : Game) (position : Int) : Game :=
  { game with moves := game.moves ++ [{ position := position, player := currentPlayer game }] }

/-- The update of `status` and `winner` after the push (lines 83-91). -/
def settle (game : Game) : Game :=
  let winner := checkWin game.moves
  if truthy winner then { game with status := Status.Completed, winner := winner }
  else if game.moves.length = 9 then
    { game with status := Status.Completed, winner := some "Draw" }
  else game

/-- Route `POST /move/:gameId`. The occupied test compares the stored positions with the
request value by `===`; the push casts the request value to a Number, and a value that cannot
be cast makes `game.save()` reject, which the `catch` answers with status 500. -/
def postMove (db : Store) (gameId : GameId) (userId : UserId) (position : JsValue) :
    Store × Response :=
  match findById db gameId with
  | none => (db, Response.send 400 "Invalid or completed game")
  | some game =>
    if game.status = Status.Completed then
      (db, Response.send 400 "Invalid or completed game")
    else if game.moves.any (fun move => strictEquals move.position position) then
      (db, Response.send 400 "Position already taken")
    else if (currentPlayer game = "Player1" ∧ game.player1 ≠ userId) ∨
        (currentPlayer game = "Player2" ∧ game.player2 ≠ userId) then
      (db, Response.send 403 "Not your turn")
    else
      match castNumber position with
      | none => (db, Response.send 500 "Error making move")
      | some stored =>
        let game' := settle (pushMove game stored)
        (save db game', Response.json 200 game')

/-- The assignment `game.rematch = { requestedBy: req.userId, accepted: false }`. -/
def requestRematch (game : Game) (userId : UserId) : Game :=
  { game with rematch := { requestedBy := some userId, accepted := false } }

/-- The reset of lines 165-171: `accepted = true`, `moves = []`, `winner = null`,
`status = 'In Progress'`, `requestedBy = null`. -/
def resetGame (game : Game) : Game :=
  { game with
    moves := [], winner := none, status := Status.InProgress,
    rematch := { requestedBy := none, accepted := true } }

/-- Route `POST /rematch/:gameId`. -/
def postRematch (db : Store) (gameId : GameId) (userId : UserId) : Store × Response :=
  match findById db gameId with
  | none => (db, Response.send 404 "Game not found")
  | some game =>
    if game.status ≠ Status.Completed then
      (db, Response.send 400 "Game is not completed")
    else if game.rematch.requestedBy.isSome ∧ game.rematch.accepted = false then
      (db, Response.send 400 "Rematch already requested")
    else
      let game' := requestRematch game userId
      (save db game', Response.jsonMessage 200 "Rematch requested" game')

/-- Route `POST /rematch/accept/:gameId`. -/
def postRematchAccept (db : Store) (gameId : GameId) (userId : UserId) : Store × Response :=
  match findById db gameId with
  | none => (db, Response.send 404 "Game not found")
  | some game =>
    if game.rematch.requestedBy.isNone then
      (db, Response.send 400 "No rematch requested")
    else if game.rematch.accepted then
      (db, Response.send 400 "Rematch already accepted")
    else if ¬ (userId ∈ [game.player1, game.player2]) then
      (db, Response.send 403 "You are not a participant in this game")
    else
      let game' := resetGame game
      (save db game', Response.jsonMessage 200 "Rematch accepted. Game has restarted." game')

/-- Route `GET /rematch/status/:gameId`. -/
def getRematchStatus (db : Store) (gameId : GameId) : Response :=
  match findById db gameId with
  | none => Response.send 404 "Game not found"
  | some game => Response.jsonRematch 200 game.rematch.requestedBy game.rematch.accepted

/-- Route `GET /history`. -/
def getHistory (db : Store) (userId : UserId) : Response :=
  Response.jsonGames 200 (db.filter (fun g => g.player1 == userId || g.player2 == userId))

/-- Stores reachable from the empty collection by the state-changing routes, every move
request carrying a JSON number as position. A started game receives an identifier not yet in
the collection. -/
inductive Reachable : Store → Prop where
  | empty : Reachable []
  | start {db : Store} (newId : GameId) (userId : UserId) (opponentId : Option UserId) :
      Reachable db → findById db newId = none →
      Reachable (postStart db newId userId opponentId).1
  | move {db : Store} (gameId : GameId) (userId : UserId) (position : Int) :
      Reachable db → Reachable (postMove db gameId userId (JsValue.number position)).1
  | rematch {db : Store} (gameId : GameId) (userId : UserId) :
      Reachable db → Reachable (postRematch db gameId userId).1
  | accept {db : Store} (gameId : GameId) (userId : UserId) :
      Reachable db → Reachable (postRematchAccept db gameId userId).1

/-- The role of the move at 0-based index `i` by parity. -/
def roleAt (i : Nat) : String :=
  if i % 2 = 0 then "Player1" else "Player2"

/-- The participant bound to the current-turn role: `player1` when `moves.length` is even,
`player2` when odd. -/
def turnParticipant (game : Game) : UserId :=
  if game.moves.length % 2 = 0 then game.player1 else game.player2

/-- No existing move has this position. -/
def freeCell (game : Game) (position : Int) : Prop :=
  ∀ m ∈ game.moves, m.position ≠ position

instance (game : Game) (position : Int) : Decidable (freeCell game position) := by
  unfold freeCell; infer_instance

/-- The data-model invariants of one game document. -/
structure GameInv (g : Game) : Prop where
  nodup : (g.moves.map Move.position).Nodup
  roles : ∀ (i : Nat) (m : Move), g.moves[i]? = some m → m.player = roleAt i
  length_le : g.moves.length ≤ 9
  running : g.status = Status.InProgress →
    g.winner = none ∧ checkWin g.moves = none ∧ g.moves.length < 9
  finished : g.status = Status.Completed →
    ∃ w, g.winner = some w ∧ (w = "Player1" ∨ w = "Player2" ∨ w = "Draw")
  accepted_clears : g.rematch.accepted = true → g.rematch.requestedBy = none
  requested_completed : g.rematch.requestedBy.isSome = true → g.status = Status.Completed

/-- Role `r` played all three cells of `combo`: the moves `(a, r)`, `(b, r)`, `(c, r)` are in
the move list. -/
def ownsLine (moves : List Move) (r : String) (combo : Int × Int × Int) : Prop :=
  (⟨combo.1, r⟩ : Move) ∈ moves ∧ (⟨combo.2.1, r⟩ : Move) ∈ moves ∧
    (⟨combo.2.2, r⟩ : Move) ∈ moves

instance (moves : List Move) (r : String) (combo : Int × Int × Int) :
    Decidable (ownsLine moves r combo) := by
  unfold ownsLine; infer_instance

/-- Some canonical line has its three cells played by one role. -/
def someLineOwned (moves : List Move) : Prop :=
  ∃ combo ∈ winningCombinations, ∃ r, ownsLine moves r combo

/-- The store after `Start(A, B)`. -/
def startedDb : Store := (postStart [] "g" "A" (some "B")).1

/-- The scenario store after `Start(A, B)` and the moves A:0, B:4, A:1, B:5. -/
def fourMovesDb : Store :=
  (postMove (postMove (postMove (postMove startedDb "g" "A" (JsValue.number 0)).1 "g" "B" (JsValue.number 4)).1 "g" "A" (JsValue.number 1)).1
    "g" "B" (JsValue.number 5)).1

/-- The game held by `fourMovesDb`. -/
def fourMovesGame : Game :=
  { newGame "g" "A" "B" with
    moves := [⟨0, "Player1"⟩, ⟨4, "Player2"⟩, ⟨1, "Player1"⟩, ⟨5, "Player2"⟩] }

/-- The scenario game after the fifth move A:2. -/
def wonGame : Game :=
  { fourMovesGame with
    moves := fourMovesGame.moves ++ [⟨2, "Player1"⟩],
    winner := some "Player1", status := Status.Completed }

/-- The scenario store holding `wonGame`. -/
def wonDb : Store := (postMove fourMovesDb "g" "A" (JsValue.number 2)).1

/-- A store after eight moves with no line owned: A:0, B:1, A:2, B:4, A:3, B:5, A:7, B:6. -/
def eightMovesDb : Store :=
  (postMove (postMove (postMove (postMove (postMove (postMove (postMove (postMove startedDb
    "g" "A" (JsValue.number 0)).1 "g" "B" (JsValue.number 1)).1 "g" "A" (JsValue.number 2)).1 "g" "B" (JsValue.number 4)).1 "g" "A" (JsValue.number 3)).1 "g" "B" (JsValue.number 5)).1
    "g" "A" (JsValue.number 7)).1 "g" "B" (JsValue.number 6)).1

/-- The game held by `eightMovesDb`. -/
def eightMovesGame : Game :=
  { newGame "g" "A" "B" with
    moves := [⟨0, "Player1"⟩, ⟨1, "Player2"⟩, ⟨2, "Player1"⟩, ⟨4, "Player2"⟩,
      ⟨3, "Player1"⟩, ⟨5, "Player2"⟩, ⟨7, "Player1"⟩, ⟨6, "Player2"⟩] }

/-- The drawn game after the ninth move A:8. -/
def drawnGame : Game :=
  { eightMovesGame with
    moves := eightMovesGame.moves ++ [⟨8, "Player1"⟩],
    winner := some "Draw", status := Status.Completed }

/-- Stores reachable when every move request carries a JSON number allowed by `ok` as
position; the other routes are as in `Reachable`. -/
inductive ReachableWith (ok : Int → Prop) : Store → Prop where
  | empty : ReachableWith ok []
  | start {db : Store} (newId : GameId) (userId : UserId) (opponentId : Option UserId) :
      ReachableWith ok db → findById db newId = none →
      ReachableWith ok (postStart db newId userId opponentId).1
  | move {db : Store} (gameId : GameId) (userId : UserId) (position : Int) :
      ReachableWith ok db → ok position →
      ReachableWith ok (postMove db gameId userId (JsValue.number position)).1
  | rematch {db : Store} (gameId : GameId) (userId : UserId) :
      ReachableWith ok db → ReachableWith ok (postRematch db gameId userId).1
  | accept {db : Store} (gameId : GameId) (userId : UserId) :
      ReachableWith ok db → ReachableWith ok (postRematchAccept db gameId userId).1

/-- Position inside the 3x3 board. -/
def inRange (position : Int) : Prop := 0 ≤ position ∧ position ≤ 8

instance (position : Int) : Decidable (inRange position) := by
  unfold inRange; infer_instance

/-- A rematch is pending: `requestedBy` is set and `accepted` is false. -/
def rematchPending (game : Game) : Prop :=
  game.rematch.requestedBy.isSome = true ∧ game.rematch.accepted = false

instance (game : Game) : Decidable (rematchPending game) := by
  unfold rematchPending; infer_instance

/-- The last push made role `r` own `combo`: owned in `after`, not owned in `before`. -/
def newlyCompleted (before after : List Move) (r : String) (combo : Int × Int × Int) : Prop :=
  ownsLine after r combo ∧ ¬ ownsLine before r combo

instance (before after : List Move) (r : String) (combo : Int × Int × Int) :
    Decidable (newlyCompleted before after r combo) := by
  unfold newlyCompleted; infer_instance

/-- The canonical lines that the last push made role `r` own. -/
def newlyCompletedLines (before after : List Move) (r : String) : List (Int × Int × Int) :=
  winningCombinations.filter (fun combo => decide (newlyCompleted before after r combo))

/-- Cell `p` is one of the three cells of `combo`. -/
def onLine (p : Int) (combo : Int × Int × Int) : Prop :=
  p = combo.1 ∨ p = combo.2.1 ∨ p = combo.2.2

instance (p : Int) (combo : Int × Int × Int) : Decidable (onLine p combo) := by
  unfold onLine; infer_instance

/-- The three cells of a combination. -/
def cellsOf (combo : Int × Int × Int) : List Int := [combo.1, combo.2.1, combo.2.2]

/-- The positions played by role `r`. -/
def cellsPlayedBy (moves : List Move) (r : String) : List Int :=
  (moves.filter (fun m => m.player = r)).map Move.position

/-- What the move list and the winner of a game record about its outcome. -/
structure OutcomeInv (g : Game) : Prop where
  one_role : ∀ (r1 r2 : String) (c1 c2 : Int × Int × Int),
    c1 ∈ winningCombinations → c2 ∈ winningCombinations →
    ownsLine g.moves r1 c1 → ownsLine g.moves r2 c2 → r1 = r2
  won : ∀ w, g.winner = some w → w ≠ "Draw" →
    ∃ last, g.moves.getLast? = some last ∧ last.player = w ∧
      ∃ combo ∈ winningCombinations, ownsLine g.moves w combo ∧ onLine last.position combo
  drawn : g.winner = some "Draw" → g.moves.length = 9

/-- The scenario store after B requested a rematch of the won game. -/
def requestedDb : Store := (postRematch wonDb "g" "B").1

/-- The game held by `requestedDb`. -/
def requestedGame : Game :=
  { wonGame with rematch := { requestedBy := some "B", accepted := false } }

/-- The scenario store after A accepted the rematch. -/
def restartedDb : Store := (postRematchAccept requestedDb "g" "A").1

/-- The game held by `restartedDb`. -/
def restartedGame : Game :=
  { newGame "g" "A" "B" with rematch := { requestedBy := none, accepted := true } }

/-- The store after `Start(A, B)` and the move A:9, a position outside the board. -/
def outsideDb : Store := (postMove startedDb "g" "A" (JsValue.number 9)).1

/-- The game held by `outsideDb`. -/
def outsideGame : Game :=
  { newGame "g" "A" "B" with moves := [⟨9, "Player1"⟩] }

/-- A store after the eight moves A:1, B:4, A:2, B:5, A:3, B:7, A:6, B:8: cell 0 is free and
lies on the row 0-1-2 and on the column 0-3-6. -/
def forkDb : Store :=
  (postMove (postMove (postMove (postMove (postMove (postMove (postMove (postMove startedDb
    "g" "A" (JsValue.number 1)).1 "g" "B" (JsValue.number 4)).1 "g" "A" (JsValue.number 2)).1 "g" "B" (JsValue.number 5)).1 "g" "A" (JsValue.number 3)).1 "g" "B" (JsValue.number 7)).1
    "g" "A" (JsValue.number 6)).1 "g" "B" (JsValue.number 8)).1

/-- The game held by `forkDb`. -/
def forkGame : Game :=
  { newGame "g" "A" "B" with
    moves := [⟨1, "Player1"⟩, ⟨4, "Player2"⟩, ⟨2, "Player1"⟩, ⟨5, "Player2"⟩,
      ⟨3, "Player1"⟩, ⟨7, "Player2"⟩, ⟨6, "Player1"⟩, ⟨8, "Player2"⟩] }

/-- The game after the ninth move A:0 on `forkGame`. -/
def forkWonGame : Game :=
  { forkGame with
    moves := forkGame.moves ++ [⟨0, "Player1"⟩],
    winner := some "Player1", status := Status.Completed }

/-- The store after `Start(A, B)` and the move A:2. -/
def takenDb : Store := (postMove startedDb "g" "A" (JsValue.number 2)).1

/-- The game held by `takenDb`: cell 2 is taken by Player1 and it is B's turn. -/
def takenGame : Game :=
  { newGame "g" "A" "B" with moves := [⟨2, "Player1"⟩] }

/-- The game after B's move with the JSON string "2" as position on `takenGame`. -/
def duplicateGame : Game :=
  { newGame "g" "A" "B" with moves := [⟨2, "Player1"⟩, ⟨2, "Player2"⟩] }

/-! ## The board and the evaluator -/

theorem foldl_setCell_eq_some (moves : List Move) :
    ∀ (b : Board) (p : Int) (r : String), (moves.map Move.position).Nodup →
      ((moves.foldl setCell b) p = some r ↔
        ((⟨p, r⟩ : Move) ∈ moves ∨ (b p = some r ∧ p ∉ moves.map Move.position))) := by
  induction moves with
  | nil => intro b p r _; simp
  | cons m ms ih =>
    intro b p r hnd
    rw [List.map_cons, List.nodup_cons] at hnd
    obtain ⟨hm, hnd⟩ := hnd
    rw [List.foldl_cons, ih (setCell b m) p r hnd]
    by_cases hp : p = m.position
    · subst hp
      have hnot : (⟨m.position, r⟩ : Move) ∉ ms := fun h => hm (List.mem_map.2 ⟨_, h, rfl⟩)
      constructor
      · rintro (h | ⟨h, _⟩)
        · exact absurd h hnot
        · left
          simp only [setCell, if_true, Option.some.injEq] at h
          subst h
          exact List.mem_cons_self _ _
      · rintro (h | ⟨_, h⟩)
        · rcases List.mem_cons.1 h with h | h
          · right
            have hpl : m.player = r := by rw [← h]
            refine ⟨?_, hm⟩
            simp [setCell, hpl]
          · exact absurd h hnot
        · simp at h
    · have hne : (⟨p, r⟩ : Move) ≠ m := fun h => hp (by rw [← h])
      simp [setCell, hp, hne]

theorem buildBoard_eq_some (moves : List Move) (hnd : (moves.map Move.position).Nodup)
    (p : Int) (r : String) :
    buildBoard moves p = some r ↔ (⟨p, r⟩ : Move) ∈ moves := by
  unfold buildBoard
  rw [foldl_setCell_eq_some moves emptyBoard p r hnd]
  simp [emptyBoard]

theorem comboMatches_iff (board : Board) (combo : Int × Int × Int) :
    comboMatches board combo = true ↔
      ∃ r, r ≠ "" ∧ board combo.1 = some r ∧ board combo.2.1 = some r ∧
        board combo.2.2 = some r := by
  unfold comboMatches
  cases h1 : board combo.1 with
  | none => simp [truthy]
  | some s =>
    simp only [truthy, Bool.and_eq_true, bne_iff_ne, beq_iff_eq, Option.some.injEq]
    constructor
    · rintro ⟨⟨hs, h2⟩, h3⟩
      exact ⟨s, hs, rfl, h2.symm, h3.symm⟩
    · rintro ⟨r, hr, h1, h2, h3⟩
      subst h1
      exact ⟨⟨hr, h2.symm⟩, h3.symm⟩

theorem checkCombos_eq_none (board : Board) (l : List (Int × Int × Int)) :
    checkCombos board l = none ↔ ∀ combo ∈ l, comboMatches board combo = false := by
  induction l with
  | nil => simp [checkCombos]
  | cons c cs ih =>
    unfold checkCombos
    by_cases h : comboMatches board c = true
    · obtain ⟨r, _, h1, _, _⟩ := (comboMatches_iff board c).1 h
      simp [h, h1]
    · simp only [Bool.not_eq_true] at h
      simp [h, ih]

theorem checkCombos_eq_some (board : Board) (l : List (Int × Int × Int)) (r : String) :
    checkCombos board l = some r →
      ∃ combo ∈ l, comboMatches board combo = true ∧ board combo.1 = some r := by
  induction l with
  | nil => simp [checkCombos]
  | cons c cs ih =>
    unfold checkCombos
    by_cases h : comboMatches board c = true
    · simp only [h, if_true]
      intro h1
      exact ⟨c, List.mem_cons_self _ _, h, h1⟩
    · simp only [h, Bool.false_eq_true, if_false]
      intro h1
      obtain ⟨combo, hmem, hc⟩ := ih h1
      exact ⟨combo, List.mem_cons_of_mem _ hmem, hc⟩

/-- With distinct positions, a combination matches on the built board exactly when a
non-empty role owns it. -/
theorem comboMatches_buildBoard (moves : List Move) (hnd : (moves.map Move.position).Nodup)
    (combo : Int × Int × Int) :
    comboMatches (buildBoard moves) combo = true ↔ ∃ r, r ≠ "" ∧ ownsLine moves r combo := by
  rw [comboMatches_iff]
  simp only [buildBoard_eq_some moves hnd, ownsLine]

theorem checkWin_some_owns (moves : List Move) (hnd : (moves.map Move.position).Nodup)
    (r : String) (h : checkWin moves = some r) :
    r ≠ "" ∧ ∃ combo ∈ winningCombinations, ownsLine moves r combo := by
  obtain ⟨combo, hmem, hc, h1⟩ := checkCombos_eq_some _ _ _ h
  obtain ⟨r', hr', h1', h2', h3'⟩ := (comboMatches_iff _ _).1 hc
  have : r' = r := by rw [h1'] at h1; exact Option.some.inj h1
  subst this
  refine ⟨hr', combo, hmem, ?_⟩
  exact ⟨(buildBoard_eq_some moves hnd _ _).1 h1', (buildBoard_eq_some moves hnd _ _).1 h2',
    (buildBoard_eq_some moves hnd _ _).1 h3'⟩

theorem checkWin_eq_none (moves : List Move) (hnd : (moves.map Move.position).Nodup) :
    checkWin moves = none ↔
      ∀ combo ∈ winningCombinations, ∀ r, r ≠ "" → ¬ ownsLine moves r combo := by
  unfold checkWin
  rw [checkCombos_eq_none]
  constructor
  · intro h combo hmem r hr hown
    have := (comboMatches_buildBoard moves hnd combo).2 ⟨r, hr, hown⟩
    rw [h combo hmem] at this
    exact Bool.false_ne_true this
  · intro h combo hmem
    cases hc : comboMatches (buildBoard moves) combo with
    | false => rfl
    | true =>
      obtain ⟨r, hr, hown⟩ := (comboMatches_buildBoard moves hnd combo).1 hc
      exact absurd hown (h combo hmem r hr)

theorem ownsLine_ne_empty (moves : List Move)
    (hrole : ∀ m ∈ moves, m.player = "Player1" ∨ m.player = "Player2")
    (r : String) (combo : Int × Int × Int) (h : ownsLine moves r combo) :
    r = "Player1" ∨ r = "Player2" := hrole _ h.1

/-! ## The store -/

theorem findById_some {db : Store} {gameId : GameId} {g : Game}
    (h : findById db gameId = some g) : g ∈ db ∧ g._id = gameId := by
  unfold findById at h
  exact ⟨List.mem_of_find?_eq_some h, by simpa using List.find?_some h⟩

theorem mem_save {db : Store} {game g : Game} (h : g ∈ save db game) : g = game ∨ g ∈ db := by
  unfold save at h
  obtain ⟨g0, hg0, rfl⟩ := List.mem_map.1 h
  by_cases hid : g0._id = game._id
  · left; simp [hid]
  · right; simpa [hid] using hg0

theorem findById_save {db : Store} {gameId : GameId} {g game : Game}
    (h : findById db gameId = some g) (hid : game._id = g._id) :
    findById (save db game) gameId = some game := by
  have hgid : g._id = gameId := (findById_some h).2
  unfold findById save at *
  induction db with
  | nil => simp at h
  | cons x xs ih =>
    rw [List.map_cons]
    by_cases hx : x._id = gameId
    · have hxe : x._id = game._id := by rw [hx, hid, hgid]
      simp [List.find?_cons, hxe, hid, hgid]
    · have hxe : ¬ x._id = game._id := by rw [hid, hgid]; exact hx
      have hx' : (x._id == gameId) = false := by simpa using hx
      rw [List.find?_cons, hx'] at h
      simp only [hxe, if_false, List.find?_cons, hx']
      exact ih h

/-! ## What a successful call did -/

theorem any_position_iff (game : Game) (position : Int) :
    game.moves.any (fun move => strictEquals move.position (JsValue.number position)) = false ↔
      freeCell game position := by
  unfold freeCell
  simp [List.any_eq_false, strictEquals]

theorem turn_check_iff (game : Game) (userId : UserId) :
    ((currentPlayer game = "Player1" ∧ game.player1 ≠ userId) ∨
        (currentPlayer game = "Player2" ∧ game.player2 ≠ userId)) ↔
      turnParticipant game ≠ userId := by
  unfold currentPlayer turnParticipant
  by_cases h : game.moves.length % 2 = 0 <;> simp [h]

theorem status_ne_completed (g : Game) : g.status ≠ Status.Completed ↔ g.status = Status.InProgress := by
  cases g.status <;> simp

/-- The four outcomes of `postMove` on an existing game for a JSON number as position, in the
order of the checks. -/
theorem postMove_eq (db : Store) (gameId : GameId) (userId : UserId) (position : Int)
    (game : Game) (hfind : findById db gameId = some game) :
    postMove db gameId userId (JsValue.number position) =
      if game.status = Status.Completed then
        (db, Response.send 400 "Invalid or completed game")
      else if ¬ freeCell game position then
        (db, Response.send 400 "Position already taken")
      else if turnParticipant game ≠ userId then
        (db, Response.send 403 "Not your turn")
      else
        (save db (settle (pushMove game position)),
          Response.json 200 (settle (pushMove game position))) := by
  unfold postMove
  rw [hfind]
  simp only []
  by_cases h1 : game.status = Status.Completed
  · simp [h1]
  · by_cases h2 : freeCell game position
    · have h2' := (any_position_iff game position).2 h2
      by_cases h3 : turnParticipant game = userId
      · have h3' := (not_congr (turn_check_iff game userId)).2 (not_not.2 h3)
        rw [if_neg h1, if_neg (by simp [h2']), if_neg h3', if_neg h1, if_neg (not_not.2 h2),
          if_neg (not_not.2 h3)]
        rfl
      · have h3' := (turn_check_iff game userId).2 h3
        rw [if_neg h1, if_neg (by simp [h2']), if_pos h3', if_neg h1, if_neg (not_not.2 h2),
          if_pos h3]
    · have h2' : game.moves.any
          (fun move => strictEquals move.position (JsValue.number position)) = true := by
        cases hc : game.moves.any
            (fun move => strictEquals move.position (JsValue.number position)) with
        | true => rfl
        | false => exact absurd ((any_position_iff game position).1 hc) h2
      simp [h1, h2, h2']

theorem postMove_ok {db : Store} {gameId : GameId} {userId : UserId} {position : Int}
    {game game' : Game} (hfind : findById db gameId = some game)
    (hok : (postMove db gameId userId (JsValue.number position)).2 = Response.json 200 game') :
    game.status = Status.InProgress ∧ freeCell game position ∧ turnParticipant game = userId ∧
      game' = settle (pushMove game position) ∧
      (postMove db gameId userId (JsValue.number position)).1 = save db game' := by
  rw [postMove_eq db gameId userId position game hfind] at hok ⊢
  by_cases h1 : game.status = Status.Completed
  · simp [h1] at hok
  · by_cases h2 : freeCell game position
    · by_cases h3 : turnParticipant game = userId
      · simp only [h1, h2, h3, if_false, not_true_eq_false, ne_eq] at hok ⊢
        have := Response.json.inj hok
        exact ⟨(status_ne_completed game).1 h1, trivial, trivial, this.2.symm, by rw [this.2]⟩
      · simp [h1, h2, h3] at hok
    · simp [h1, h2] at hok

/-! ## Invariant preservation -/

theorem roleAt_cases (i : Nat) : roleAt i = "Player1" ∨ roleAt i = "Player2" := by
  unfold roleAt
  by_cases h : i % 2 = 0 <;> simp [h]

theorem currentPlayer_eq_roleAt (game : Game) : currentPlayer game = roleAt game.moves.length := rfl

theorem roles_valid {moves : List Move}
    (h : ∀ (i : Nat) (m : Move), moves[i]? = some m → m.player = roleAt i) :
    ∀ m ∈ moves, m.player = "Player1" ∨ m.player = "Player2" := by
  intro m hm
  obtain ⟨i, hi⟩ := List.mem_iff_getElem?.1 hm
  rw [h i m hi]
  exact roleAt_cases i

theorem truthy_eq_false_of_nodup {moves : List Move} (hnd : (moves.map Move.position).Nodup)
    (h : truthy (checkWin moves) = false) : checkWin moves = none := by
  cases hc : checkWin moves with
  | none => rfl
  | some r =>
    have hr := (checkWin_some_owns moves hnd r hc).1
    rw [hc] at h
    simp [truthy, hr] at h

theorem pushMove_nodup {game : Game} {position : Int}
    (hnd : (game.moves.map Move.position).Nodup) (hfree : freeCell game position) :
    ((pushMove game position).moves.map Move.position).Nodup := by
  unfold pushMove
  simp only [List.map_append, List.map_cons, List.map_nil]
  rw [List.nodup_append]
  refine ⟨hnd, List.nodup_singleton _, ?_⟩
  intro a ha hb
  obtain ⟨m, hm, rfl⟩ := List.mem_map.1 ha
  exact hfree m hm (List.mem_singleton.1 hb)

theorem pushMove_roles {game : Game} (position : Int)
    (hr : ∀ (i : Nat) (m : Move), game.moves[i]? = some m → m.player = roleAt i) :
    ∀ (i : Nat) (m : Move), (pushMove game position).moves[i]? = some m →
      m.player = roleAt i := by
  intro i m hm
  unfold pushMove at hm
  simp only at hm
  by_cases hi : i < game.moves.length
  · rw [List.getElem?_append_left hi] at hm
    exact hr i m hm
  · rw [List.getElem?_append_right (Nat.le_of_not_lt hi)] at hm
    cases hk : i - game.moves.length with
    | zero =>
      rw [hk] at hm
      simp only [List.getElem?_cons_zero, Option.some.injEq] at hm
      have : i = game.moves.length := by omega
      rw [← hm, this]
      rfl
    | succ k =>
      rw [hk] at hm
      simp at hm

theorem settle_moves (game : Game) : (settle game).moves = game.moves := by
  unfold settle
  simp only []
  split
  · rfl
  · split <;> rfl

theorem settle_rematch (game : Game) : (settle game).rematch = game.rematch := by
  unfold settle
  simp only []
  split
  · rfl
  · split <;> rfl

theorem settle_ids (game : Game) :
    (settle game)._id = game._id ∧ (settle game).player1 = game.player1 ∧
      (settle game).player2 = game.player2 := by
  unfold settle
  simp only []
  split
  · exact ⟨rfl, rfl, rfl⟩
  · split <;> exact ⟨rfl, rfl, rfl⟩

theorem checkWin_nil : checkWin [] = none := by decide

theorem GameInv_newGame (newId : GameId) (player1 player2 : UserId) :
    GameInv (newGame newId player1 player2) where
  nodup := by simp [newGame]
  roles := by simp [newGame]
  length_le := by simp [newGame]
  running := by intro _; exact ⟨rfl, checkWin_nil, by simp [newGame]⟩
  finished := by intro h; simp [newGame] at h
  accepted_clears := by intro h; simp [newGame] at h
  requested_completed := by intro h; simp [newGame] at h

theorem GameInv_resetGame (game : Game) : GameInv (resetGame game) where
  nodup := by simp [resetGame]
  roles := by simp [resetGame]
  length_le := by simp [resetGame]
  running := by intro _; exact ⟨rfl, checkWin_nil, by simp [resetGame]⟩
  finished := by intro h; simp [resetGame] at h
  accepted_clears := by intro _; rfl
  requested_completed := by intro h; simp [resetGame] at h

theorem GameInv_requestRematch {game : Game} (userId : UserId) (h : GameInv game)
    (hc : game.status = Status.Completed) : GameInv (requestRematch game userId) where
  nodup := h.nodup
  roles := h.roles
  length_le := h.length_le
  running := h.running
  finished := h.finished
  accepted_clears := by intro h'; simp [requestRematch] at h'
  requested_completed := by intro _; exact hc

theorem GameInv_move {game : Game} {position : Int} (h : GameInv game)
    (hs : game.status = Status.InProgress) (hfree : freeCell game position) :
    GameInv (settle (pushMove game position)) := by
  have hnd := pushMove_nodup h.nodup hfree
  have hroles := pushMove_roles position h.roles
  obtain ⟨hw, _, hlt⟩ := h.running hs
  have hlen : (pushMove game position).moves.length = game.moves.length + 1 := by
    simp [pushMove]
  have hreq : game.rematch.requestedBy = none := by
    cases hq : game.rematch.requestedBy with
    | none => rfl
    | some u =>
      have := h.requested_completed (by simp [hq])
      rw [hs] at this
      exact absurd this (by decide)
  refine
    { nodup := by rw [settle_moves]; exact hnd
      roles := by rw [settle_moves]; exact hroles
      length_le := by rw [settle_moves, hlen]; omega
      running := ?_
      finished := ?_
      accepted_clears := by intro _; rw [settle_rematch]; exact hreq
      requested_completed := by
        intro hq
        rw [settle_rematch] at hq
        change game.rematch.requestedBy.isSome = true at hq
        simp [hreq] at hq }
  · intro hrun
    unfold settle at hrun ⊢
    simp only [] at hrun ⊢
    by_cases ht : truthy (checkWin (pushMove game position).moves) = true
    · simp [ht] at hrun
    · by_cases h9 : (pushMove game position).moves.length = 9
      · simp [ht, h9] at hrun
      · simp only [ht, h9, if_false, Bool.false_eq_true]
        refine ⟨hw, truthy_eq_false_of_nodup hnd (by simpa using ht), ?_⟩
        rw [hlen] at h9 ⊢
        omega
  · intro _
    unfold settle
    simp only []
    by_cases ht : truthy (checkWin (pushMove game position).moves) = true
    · simp only [ht, if_true]
      cases hc : checkWin (pushMove game position).moves with
      | none => rw [hc] at ht; simp [truthy] at ht
      | some r =>
        obtain ⟨_, combo, _, hown⟩ := checkWin_some_owns _ hnd r hc
        rcases roles_valid hroles _ hown.1 with hr | hr
        · exact ⟨r, rfl, Or.inl hr⟩
        · exact ⟨r, rfl, Or.inr (Or.inl hr)⟩
    · by_cases h9 : (pushMove game position).moves.length = 9
      · simp only [ht, h9, if_true, if_false, Bool.false_eq_true]
        exact ⟨"Draw", rfl, Or.inr (Or.inr rfl)⟩
      · simp only [ht, h9, if_false, Bool.false_eq_true]
        change ∃ w, game.winner = some w ∧ _
        have hst : (settle (pushMove game position)).status = Status.Completed := by assumption
        unfold settle at hst
        simp only [ht, h9, if_false, Bool.false_eq_true] at hst
        change game.status = Status.Completed at hst
        rw [hs] at hst
        exact absurd hst (by decide)

/-- Every document of a reachable store satisfies the data-model invariants. -/
theorem reachable_inv {db : Store} (h : Reachable db) : ∀ g ∈ db, GameInv g := by
  induction h with
  | empty => intro g hg; simp at hg
  | @start db newId userId opponentId _ _ ih =>
    intro g hg
    unfold postStart at hg
    cases opponentId with
    | none => exact ih g hg
    | some opp =>
      by_cases ho : opp = ""
      · simp only [ho, if_true] at hg
        exact ih g hg
      · simp only [ho, if_false, List.mem_append, List.mem_singleton] at hg
        rcases hg with hg | hg
        · exact ih g hg
        · rw [hg]; exact GameInv_newGame _ _ _
  | @move db gameId userId position _ ih =>
    intro g hg
    cases hf : findById db gameId with
    | none =>
      unfold postMove at hg
      rw [hf] at hg
      exact ih g hg
    | some game =>
      rw [postMove_eq db gameId userId position game hf] at hg
      by_cases h1 : game.status = Status.Completed
      · rw [if_pos h1] at hg; exact ih g hg
      · rw [if_neg h1] at hg
        by_cases h2 : freeCell game position
        · rw [if_neg (not_not.2 h2)] at hg
          by_cases h3 : turnParticipant game = userId
          · rw [if_neg (not_not.2 h3)] at hg
            rcases mem_save hg with hg | hg
            · rw [hg]
              exact GameInv_move (ih game (findById_some hf).1)
                ((status_ne_completed game).1 h1) h2
            · exact ih g hg
          · rw [if_pos h3] at hg; exact ih g hg
        · rw [if_pos h2] at hg; exact ih g hg
  | @rematch db gameId userId _ ih =>
    intro g hg
    unfold postRematch at hg
    cases hf : findById db gameId with
    | none => rw [hf] at hg; exact ih g hg
    | some game =>
      rw [hf] at hg
      simp only [] at hg
      by_cases h1 : game.status ≠ Status.Completed
      · rw [if_pos h1] at hg; exact ih g hg
      · rw [if_neg h1] at hg
        split at hg
        · exact ih g hg
        · rcases mem_save hg with hg | hg
          · rw [hg]
            exact GameInv_requestRematch userId (ih game (findById_some hf).1) (not_not.1 h1)
          · exact ih g hg
  | @accept db gameId userId _ ih =>
    intro g hg
    unfold postRematchAccept at hg
    cases hf : findById db gameId with
    | none => rw [hf] at hg; exact ih g hg
    | some game =>
      rw [hf] at hg
      simp only [] at hg
      split at hg
      · exact ih g hg
      · split at hg
        · exact ih g hg
        · split at hg
          · exact ih g hg
          · rcases mem_save hg with hg | hg
            · rw [hg]; exact GameInv_resetGame game
            · exact ih g hg

theorem checkWin_none_iff_not_owned (moves : List Move)
    (hnd : (moves.map Move.position).Nodup)
    (hrole : ∀ m ∈ moves, m.player = "Player1" ∨ m.player = "Player2") :
    checkWin moves = none ↔ ¬ someLineOwned moves := by
  rw [checkWin_eq_none moves hnd]
  constructor
  · rintro h ⟨combo, hmem, r, hown⟩
    have hr := ownsLine_ne_empty moves hrole r combo hown
    refine h combo hmem r ?_ hown
    rcases hr with hr | hr <;> rw [hr] <;> decide
  · intro h combo hmem r _ hown
    exact h ⟨combo, hmem, r, hown⟩

/-- C1: for a move list of length at most 9 with pairwise distinct positions in 0..8 and
roles Player1 or Player2, `checkWin` returns a role `r` only if some canonical line has all
three cells played by `r`, and it returns null exactly when no canonical line has all three
cells played by one role. -/
theorem checkWin_canonical_line (moves : List Move)
    (hlen : moves.length ≤ 9)
    (hnd : (moves.map Move.position).Nodup)
    (hrange : ∀ m ∈ moves, 0 ≤ m.position ∧ m.position ≤ 8)
    (hrole : ∀ m ∈ moves, m.player = "Player1" ∨ m.player = "Player2") :
    (∀ r, checkWin moves = some r →
        (r = "Player1" ∨ r = "Player2") ∧
          ∃ combo ∈ winningCombinations, ownsLine moves r combo) ∧
      (checkWin moves = none ↔ ¬ someLineOwned moves) := by
  have _ := hlen
  have _ := hrange
  constructor
  · intro r h
    obtain ⟨_, combo, hmem, hown⟩ := checkWin_some_owns moves hnd r h
    exact ⟨ownsLine_ne_empty moves hrole r combo hown, combo, hmem, hown⟩
  · exact checkWin_none_iff_not_owned moves hnd hrole

/-- Witness for C1: a board won by Player1 on the diagonal 0-4-8. -/
theorem checkWin_canonical_line_witness :
    (∀ r, checkWin [⟨0, "Player1"⟩, ⟨1, "Player2"⟩, ⟨4, "Player1"⟩, ⟨2, "Player2"⟩,
          ⟨8, "Player1"⟩] = some r →
        (r = "Player1" ∨ r = "Player2") ∧
          ∃ combo ∈ winningCombinations,
            ownsLine [⟨0, "Player1"⟩, ⟨1, "Player2"⟩, ⟨4, "Player1"⟩, ⟨2, "Player2"⟩,
              ⟨8, "Player1"⟩] r combo) ∧
      (checkWin [⟨0, "Player1"⟩, ⟨1, "Player2"⟩, ⟨4, "Player1"⟩, ⟨2, "Player2"⟩,
          ⟨8, "Player1"⟩] = none ↔
        ¬ someLineOwned [⟨0, "Player1"⟩, ⟨1, "Player2"⟩, ⟨4, "Player1"⟩, ⟨2, "Player2"⟩,
          ⟨8, "Player1"⟩]) :=
  checkWin_canonical_line _ (by decide) (by decide) (by decide) (by decide)

/-! ## Scenario stores -/

theorem startedDb_reachable : Reachable startedDb :=
  Reachable.start "g" "A" (some "B") Reachable.empty (by decide)

theorem fourMovesDb_reachable : Reachable fourMovesDb :=
  Reachable.move "g" "B" 5 (Reachable.move "g" "A" 1 (Reachable.move "g" "B" 4
    (Reachable.move "g" "A" 0 startedDb_reachable)))

theorem wonDb_reachable : Reachable wonDb :=
  Reachable.move "g" "A" 2 fourMovesDb_reachable

theorem eightMovesDb_reachable : Reachable eightMovesDb :=
  Reachable.move "g" "B" 6 (Reachable.move "g" "A" 7 (Reachable.move "g" "B" 5
    (Reachable.move "g" "A" 3 (Reachable.move "g" "B" 4 (Reachable.move "g" "A" 2
      (Reachable.move "g" "B" 1 (Reachable.move "g" "A" 0 startedDb_reachable)))))))

/-! ## Outcome of a move -/

theorem currentPlayer_ne_empty (game : Game) : currentPlayer game ≠ "" := by
  unfold currentPlayer
  by_cases h : game.moves.length % 2 = 0 <;> simp [h]

theorem currentPlayer_ne_draw (game : Game) : currentPlayer game ≠ "Draw" := by
  unfold currentPlayer
  by_cases h : game.moves.length % 2 = 0 <;> simp [h]

/-- A line owned after the push by a role other than the mover was already owned. -/
theorem ownsLine_before_push {game : Game} {position : Int} {r : String}
    {combo : Int × Int × Int} (hr : r ≠ currentPlayer game)
    (h : ownsLine (pushMove game position).moves r combo) : ownsLine game.moves r combo := by
  have key : ∀ p : Int, (⟨p, r⟩ : Move) ∈ (pushMove game position).moves →
      (⟨p, r⟩ : Move) ∈ game.moves := by
    intro p hp
    unfold pushMove at hp
    rcases List.mem_append.1 hp with hp | hp
    · exact hp
    · have := List.mem_singleton.1 hp
      exact absurd (congrArg Move.player this) hr
  exact ⟨key _ h.1, key _ h.2.1, key _ h.2.2⟩

/-- In a running game with the invariants, the evaluator after a legal push returns the
mover when some line is owned, and null otherwise. -/
theorem checkWin_after_push {game : Game} {position : Int} (inv : GameInv game)
    (hs : game.status = Status.InProgress) (hfree : freeCell game position) :
    (someLineOwned (pushMove game position).moves →
        checkWin (pushMove game position).moves = some (currentPlayer game)) ∧
      (¬ someLineOwned (pushMove game position).moves →
        checkWin (pushMove game position).moves = none) := by
  have hnd := pushMove_nodup inv.nodup hfree
  have hroles := roles_valid (pushMove_roles position inv.roles)
  constructor
  · rintro ⟨combo, hmem, r, hown⟩
    have hr : r ≠ "" := by
      rcases hroles _ hown.1 with h | h <;> (simp only at h; rw [h]; decide)
    cases hc : checkWin (pushMove game position).moves with
    | none => exact absurd hown ((checkWin_eq_none _ hnd).1 hc combo hmem r hr)
    | some w =>
      obtain ⟨hw, combo2, hmem2, hown2⟩ := checkWin_some_owns _ hnd w hc
      by_cases hwc : w = currentPlayer game
      · rw [hwc]
      · have hold := ownsLine_before_push hwc hown2
        exact absurd hold
          ((checkWin_eq_none _ inv.nodup).1 (inv.running hs).2.1 combo2 hmem2 w hw)
  · intro hno
    rw [checkWin_eq_none _ hnd]
    intro combo hmem r _ hown
    exact hno ⟨combo, hmem, r, hown⟩

/-- C2: in a reachable store, for an in-progress game and a successful move, if after the
push some canonical line is fully occupied by the mover's role, the returned game is
Completed with that role as winner (whatever the number of moves, the ninth included). -/
theorem move_completing_line_wins {db : Store} (hreach : Reachable db) (gameId : GameId)
    (userId : UserId) (position : Int) (game game' : Game)
    (hfind : findById db gameId = some game) (hprog : game.status = Status.InProgress)
    (hok : (postMove db gameId userId (JsValue.number position)).2 = Response.json 200 game')
    (hline : ∃ combo ∈ winningCombinations, ownsLine game'.moves (currentPlayer game) combo) :
    game'.status = Status.Completed ∧ game'.winner = some (currentPlayer game) := by
  obtain ⟨_, hfree, _, hgame', _⟩ := postMove_ok hfind hok
  have inv := reachable_inv hreach game (findById_some hfind).1
  subst hgame'
  rw [settle_moves] at hline
  obtain ⟨combo, hmem, hown⟩ := hline
  have hc := (checkWin_after_push inv hprog hfree).1 ⟨combo, hmem, _, hown⟩
  have ht : truthy (some (currentPlayer game)) = true := by
    simp [truthy, currentPlayer_ne_empty]
  unfold settle
  simp only [hc, ht, if_true, and_self]

/-- Witness for C2: the scenario Start(A,B), A:0, B:4, A:1, B:5, A:2 ends Completed with
winner Player1. -/
theorem move_completing_line_wins_witness :
    (postMove fourMovesDb "g" "A" (JsValue.number 2)).2 = Response.json 200 wonGame ∧
      wonGame.status = Status.Completed ∧ wonGame.winner = some "Player1" :=
  ⟨by decide,
    move_completing_line_wins fourMovesDb_reachable "g" "A" 2 fourMovesGame wonGame
      (by decide) (by decide) (by decide) (by decide)⟩

/-- C3: in a reachable store, for an in-progress game and a successful move: with no
canonical line owned after the push and exactly 9 moves the game is Completed with winner
Draw; with no line owned and fewer than 9 moves it stays InProgress with winner unset; and
when a line is owned after the push the winner is not Draw. -/
theorem move_draw_or_continue {db : Store} (hreach : Reachable db) (gameId : GameId)
    (userId : UserId) (position : Int) (game game' : Game)
    (hfind : findById db gameId = some game) (hprog : game.status = Status.InProgress)
    (hok : (postMove db gameId userId (JsValue.number position)).2 = Response.json 200 game') :
    (¬ someLineOwned game'.moves → game'.moves.length = 9 →
        game'.status = Status.Completed ∧ game'.winner = some "Draw") ∧
      (¬ someLineOwned game'.moves → game'.moves.length < 9 →
        game'.status = Status.InProgress ∧ game'.winner = none) ∧
      (someLineOwned game'.moves → game'.winner ≠ some "Draw") := by
  obtain ⟨_, hfree, _, hgame', _⟩ := postMove_ok hfind hok
  have inv := reachable_inv hreach game (findById_some hfind).1
  subst hgame'
  rw [settle_moves]
  have hpush := checkWin_after_push inv hprog hfree
  have hw : game.winner = none := (inv.running hprog).1
  refine ⟨?_, ?_, ?_⟩
  · intro hno h9
    have hc := hpush.2 hno
    unfold settle
    simp [hc, truthy, h9]
  · intro hno hlt
    have hc := hpush.2 hno
    have h9 : (pushMove game position).moves.length ≠ 9 := by omega
    unfold settle
    simp only [hc, truthy, h9, if_false, Bool.false_eq_true]
    exact ⟨hprog, hw⟩
  · intro hsome
    have hc := hpush.1 hsome
    have ht : truthy (some (currentPlayer game)) = true := by
      simp [truthy, currentPlayer_ne_empty]
    unfold settle
    simp only [hc, ht, if_true]
    intro h
    exact currentPlayer_ne_draw game (Option.some.inj h)

/-- Witness for C3: the ninth move A:8 on a board without an owned line gives a draw. -/
theorem move_draw_or_continue_witness :
    (postMove eightMovesDb "g" "A" (JsValue.number 8)).2 = Response.json 200 drawnGame ∧
      ¬ someLineOwned drawnGame.moves ∧ drawnGame.moves.length = 9 ∧
      drawnGame.status = Status.Completed ∧ drawnGame.winner = some "Draw" :=
  ⟨by decide,
    (checkWin_none_iff_not_owned drawnGame.moves (by decide) (by decide)).1 (by decide),
    by decide,
    (move_draw_or_continue eightMovesDb_reachable "g" "A" 8 eightMovesGame drawnGame
      (by decide) (by decide) (by decide)).1
      ((checkWin_none_iff_not_owned drawnGame.moves (by decide) (by decide)).1 (by decide))
      (by decide)⟩

/-! ## Order of the checks of a move -/

/-- For a JSON number as position, on an existing game `postMove` answers, in this order:
400 "Invalid or completed game" when the game is Completed; else 400 "Position already taken"
when an existing move has the position; else 403 "Not your turn" when the caller is not the
participant of the current turn; else it succeeds and the new move list is the old one with
(position, current-turn role) appended. -/
theorem postMove_check_order (db : Store) (gameId : GameId) (userId : UserId)
    (position : Int) (game : Game) (hfind : findById db gameId = some game) :
    (game.status = Status.Completed →
        postMove db gameId userId (JsValue.number position) =
          (db, Response.send 400 "Invalid or completed game")) ∧
      (game.status ≠ Status.Completed → (∃ m ∈ game.moves, m.position = position) →
        postMove db gameId userId (JsValue.number position) =
          (db, Response.send 400 "Position already taken")) ∧
      (game.status ≠ Status.Completed → freeCell game position →
        userId ≠ turnParticipant game →
        postMove db gameId userId (JsValue.number position) = (db, Response.send 403 "Not your turn")) ∧
      (game.status ≠ Status.Completed → freeCell game position →
        userId = turnParticipant game →
        ∃ game', postMove db gameId userId (JsValue.number position) = (save db game', Response.json 200 game') ∧
          game'.moves = game.moves ++ [⟨position, roleAt game.moves.length⟩]) ∧
      ((∃ game', (postMove db gameId userId (JsValue.number position)).2 = Response.json 200 game') ↔
        game.status = Status.InProgress ∧ freeCell game position ∧
          userId = turnParticipant game) := by
  rw [postMove_eq db gameId userId position game hfind]
  refine ⟨?_, ?_, ?_, ?_, ?_⟩
  · intro h1
    rw [if_pos h1]
  · rintro h1 ⟨m, hm, hp⟩
    have h2 : ¬ freeCell game position := fun hf => hf m hm hp
    rw [if_neg h1, if_pos h2]
  · intro h1 h2 h3
    rw [if_neg h1, if_neg (not_not.2 h2), if_pos (Ne.symm h3)]
  · intro h1 h2 h3
    rw [if_neg h1, if_neg (not_not.2 h2), if_neg (not_not.2 h3.symm)]
    exact ⟨_, rfl, by rw [settle_moves]; rfl⟩
  · by_cases h1 : game.status = Status.Completed
    · rw [if_pos h1]
      simp [h1]
    · rw [if_neg h1]
      by_cases h2 : freeCell game position
      · rw [if_neg (not_not.2 h2)]
        by_cases h3 : turnParticipant game = userId
        · rw [if_neg (not_not.2 h3)]
          simp [(status_ne_completed game).1 h1, h2, h3]
        · rw [if_pos h3]
          have h3' : ¬ userId = turnParticipant game := fun h => h3 h.symm
          simp [h3']
      · rw [if_pos h2]
        simp [h2]

/-- For a JSON string as position the occupied test never fires: on an existing game in
progress, called by the participant of the current turn, `postMove` pushes the cast position
whether or not an existing move has it. -/
theorem postMove_string_position (db : Store) (gameId : GameId) (userId : UserId)
    (text : String) (stored : Int) (game : Game) (hfind : findById db gameId = some game)
    (hs : game.status = Status.InProgress) (hturn : turnParticipant game = userId)
    (hcast : castNumber (JsValue.string text) = some stored) :
    postMove db gameId userId (JsValue.string text) =
      (save db (settle (pushMove game stored)),
        Response.json 200 (settle (pushMove game stored))) := by
  unfold postMove
  rw [hfind]
  simp only []
  have h1 : ¬ game.status = Status.Completed := by rw [hs]; decide
  have h2 : ¬ game.moves.any
      (fun move => strictEquals move.position (JsValue.string text)) = true := by
    simp [strictEquals]
  have h3 := (not_congr (turn_check_iff game userId)).2 (not_not.2 hturn)
  rw [if_neg h1, if_neg h2, if_neg h3, hcast]

/-- C4: the occupied check of `postMove` is missed for a position sent as a JSON string.
After `Start(A, B)` and A:2 the game is in progress, cell 2 is taken and it is B's turn; B's
move with the number 2 is answered 400 "Position already taken", but B's move with the
string "2", which the schema casts to 2, is answered 200 and (2, Player2) is appended. -/
theorem string_position_passes_occupied_check :
    findById takenDb "g" = some takenGame ∧ takenGame.status = Status.InProgress ∧
      (∃ m ∈ takenGame.moves, m.position = 2) ∧ turnParticipant takenGame = "B" ∧
      postMove takenDb "g" "B" (JsValue.number 2) =
        (takenDb, Response.send 400 "Position already taken") ∧
      castNumber (JsValue.string "2") = some 2 ∧
      postMove takenDb "g" "B" (JsValue.string "2") =
        ([duplicateGame], Response.json 200 duplicateGame) ∧
      duplicateGame.moves = takenGame.moves ++ [⟨2, "Player2"⟩] := by
  decide

/-- C5: a move on an identifier absent from the store is answered with status 400 and the
text "Invalid or completed game", the very response given for a move on a Completed game,
whereas the rematch routes answer an absent game with 404 "Game not found". -/
theorem postMove_absent_same_as_completed :
    findById [] "g" = none ∧
      (postMove [] "g" "A" (JsValue.number 0)).2 = Response.send 400 "Invalid or completed game" ∧
      findById wonDb "g" = some wonGame ∧
      (postMove wonDb "g" "B" (JsValue.number 3)).2 = (postMove [] "g" "A" (JsValue.number 0)).2 ∧
      (postRematch [] "g" "A").2 = Response.send 404 "Game not found" ∧
      (postRematchAccept [] "g" "A").2 = Response.send 404 "Game not found" ∧
      getRematchStatus [] "g" = Response.send 404 "Game not found" := by
  decide

/-! ## Failed validation -/

theorem postMove_fail_unchanged (db : Store) (gameId : GameId) (userId : UserId)
    (position : Int) (s : Nat) (t : String)
    (h : (postMove db gameId userId (JsValue.number position)).2 = Response.send s t) :
    (postMove db gameId userId (JsValue.number position)).1 = db := by
  cases hf : findById db gameId with
  | none => simp [postMove, hf]
  | some game =>
    rw [postMove_eq db gameId userId position game hf] at h ⊢
    split_ifs at h ⊢ <;> rfl

theorem postRematch_fail_unchanged (db : Store) (gameId : GameId) (userId : UserId)
    (s : Nat) (t : String) (h : (postRematch db gameId userId).2 = Response.send s t) :
    (postRematch db gameId userId).1 = db := by
  unfold postRematch at h ⊢
  cases hf : findById db gameId with
  | none => rfl
  | some game =>
    rw [hf] at h
    simp only [] at h ⊢
    split_ifs at h ⊢ <;> rfl

theorem postRematchAccept_fail_unchanged (db : Store) (gameId : GameId) (userId : UserId)
    (s : Nat) (t : String) (h : (postRematchAccept db gameId userId).2 = Response.send s t) :
    (postRematchAccept db gameId userId).1 = db := by
  unfold postRematchAccept at h ⊢
  cases hf : findById db gameId with
  | none => rfl
  | some game =>
    rw [hf] at h
    simp only [] at h ⊢
    split_ifs at h ⊢ <;> rfl

/-- C6: a call of `postMove`, `postRematch` or `postRematchAccept` answered with a failure
(`res.status(s).send(text)`) leaves the whole store, hence the persisted game, as it was;
in particular, on an in-progress game with a free position a move by the participant whose
turn it is not is answered 403 "Not your turn" with the store unchanged. -/
theorem failed_call_leaves_store (db : Store) (gameId : GameId) (userId : UserId)
    (position : Int) :
    (∀ s t, (postMove db gameId userId (JsValue.number position)).2 = Response.send s t →
        (postMove db gameId userId (JsValue.number position)).1 = db) ∧
      (∀ s t, (postRematch db gameId userId).2 = Response.send s t →
        (postRematch db gameId userId).1 = db) ∧
      (∀ s t, (postRematchAccept db gameId userId).2 = Response.send s t →
        (postRematchAccept db gameId userId).1 = db) ∧
      (∀ game, findById db gameId = some game → game.status = Status.InProgress →
        freeCell game position → (userId = game.player1 ∨ userId = game.player2) →
        userId ≠ turnParticipant game →
        postMove db gameId userId (JsValue.number position) = (db, Response.send 403 "Not your turn")) := by
  refine ⟨postMove_fail_unchanged db gameId userId position,
    postRematch_fail_unchanged db gameId userId,
    postRematchAccept_fail_unchanged db gameId userId, ?_⟩
  intro game hfind hs hfree _ hturn
  rw [postMove_eq db gameId userId position game hfind]
  have h1 : ¬ game.status = Status.Completed := by rw [hs]; decide
  rw [if_neg h1, if_neg (not_not.2 hfree), if_pos (Ne.symm hturn)]

/-- Witness for C6: in the scenario after four moves it is A's turn; B moving to the free
cell 2 is refused and the store is unchanged, and so are a rematch request and a rematch
acceptance on the game in progress. -/
theorem failed_call_leaves_store_witness :
    postMove fourMovesDb "g" "B" (JsValue.number 2) = (fourMovesDb, Response.send 403 "Not your turn") ∧
      (postRematch fourMovesDb "g" "B").1 = fourMovesDb ∧
      (postRematchAccept fourMovesDb "g" "B").1 = fourMovesDb :=
  ⟨(failed_call_leaves_store fourMovesDb "g" "B" 2).2.2.2 fourMovesGame (by decide)
      (by decide) (by decide) (by decide) (by decide),
    (failed_call_leaves_store fourMovesDb "g" "B" 2).2.1 400 "Game is not completed"
      (by decide),
    (failed_call_leaves_store fourMovesDb "g" "B" 2).2.2.1 400 "No rematch requested"
      (by decide)⟩

/-! ## Invariants of reachable games -/

/-- When every move request carries a JSON number as position, every game of a reachable
store has at most 9 moves with pairwise distinct positions, and a move to a position already
in the move list of an in-progress game is answered 400 "Position already taken". -/
theorem moves_bounded_and_distinct {db : Store} (hreach : Reachable db) (g : Game)
    (hg : g ∈ db) :
    g.moves.length ≤ 9 ∧ (g.moves.map Move.position).Nodup ∧
      (∀ (gameId : GameId) (userId : UserId) (position : Int),
        findById db gameId = some g → g.status = Status.InProgress →
        (∃ m ∈ g.moves, m.position = position) →
        postMove db gameId userId (JsValue.number position) =
          (db, Response.send 400 "Position already taken")) := by
  have inv := reachable_inv hreach g hg
  refine ⟨inv.length_le, inv.nodup, ?_⟩
  rintro gameId userId position hfind hs ⟨m, hm, hp⟩
  rw [postMove_eq db gameId userId position g hfind]
  have h1 : ¬ g.status = Status.Completed := by rw [hs]; decide
  have h2 : ¬ freeCell g position := fun hf => hf m hm hp
  rw [if_neg h1, if_pos h2]

/-- C7: the move list of a game reached from Start can hold a position twice. From the
empty store, `Start(A, B)`, then A's move with the number 2, then B's move with the string
"2" all succeed; the persisted game is in progress with the positions 2, 2. The same happens
with the boolean `true`, which the schema casts to 1, on a taken cell 1. -/
theorem string_position_stored_twice :
    postStart [] "g" "A" (some "B") = (startedDb, Response.json 201 (newGame "g" "A" "B")) ∧
      postMove startedDb "g" "A" (JsValue.number 2) = (takenDb, Response.json 200 takenGame) ∧
      (postMove takenDb "g" "B" (JsValue.string "2")).2 = Response.json 200 duplicateGame ∧
      findById (postMove takenDb "g" "B" (JsValue.string "2")).1 "g" = some duplicateGame ∧
      duplicateGame.status = Status.InProgress ∧
      duplicateGame.moves.map Move.position = [2, 2] ∧
      ¬ (duplicateGame.moves.map Move.position).Nodup ∧
      (postMove (postMove startedDb "g" "A" (JsValue.number 1)).1 "g" "B"
          (JsValue.boolean true)).2 =
        Response.json 200
          { newGame "g" "A" "B" with moves := [⟨1, "Player1"⟩, ⟨1, "Player2"⟩] } := by
  decide

/-- C8: in every game of a reachable store the move at 0-based index `i` carries the role
Player1 when `i` is even and Player2 when `i` is odd. -/
theorem role_by_index_parity {db : Store} (hreach : Reachable db) (g : Game) (hg : g ∈ db)
    (i : Nat) (m : Move) (hm : g.moves[i]? = some m) :
    (i % 2 = 0 → m.player = "Player1") ∧ (i % 2 = 1 → m.player = "Player2") := by
  have h := (reachable_inv hreach g hg).roles i m hm
  unfold roleAt at h
  constructor
  · intro hi; rw [h, if_pos hi]
  · intro hi
    have hi' : ¬ i % 2 = 0 := by omega
    rw [h, if_neg hi']

/-- Witness for C8: the move at index 3 of the scenario game is Player2's. -/
theorem role_by_index_parity_witness :
    fourMovesGame ∈ fourMovesDb ∧ fourMovesGame.moves[3]? = some ⟨5, "Player2"⟩ ∧
      3 % 2 = 1 ∧ (⟨5, "Player2"⟩ : Move).player = "Player2" :=
  ⟨by decide, by decide, by decide,
    (role_by_index_parity fourMovesDb_reachable fourMovesGame (by decide) 3 ⟨5, "Player2"⟩
      (by decide)).2 (by decide)⟩

/-- C9: in every game of a reachable store the winner is set, to Player1, Player2 or Draw,
if and only if the status is Completed. -/
theorem winner_set_iff_completed {db : Store} (hreach : Reachable db) (g : Game)
    (hg : g ∈ db) :
    (g.winner.isSome = true ↔ g.status = Status.Completed) ∧
      (∀ w, g.winner = some w → w = "Player1" ∨ w = "Player2" ∨ w = "Draw") := by
  have inv := reachable_inv hreach g hg
  cases hs : g.status with
  | InProgress =>
    have hw := (inv.running hs).1
    simp [hw]
  | Completed =>
    obtain ⟨w, hw, hval⟩ := inv.finished hs
    refine ⟨by simp [hw], ?_⟩
    intro w' hw'
    rw [hw] at hw'
    rw [← Option.some.inj hw']
    exact hval

/-- Witness for C9: the won scenario game is Completed with winner Player1. -/
theorem winner_set_iff_completed_witness :
    wonGame ∈ wonDb ∧ (wonGame.winner.isSome = true ↔ wonGame.status = Status.Completed) ∧
      (∀ w, wonGame.winner = some w → w = "Player1" ∨ w = "Player2" ∨ w = "Draw") :=
  ⟨by decide, winner_set_iff_completed wonDb_reachable wonGame (by decide)⟩

/-! ## Rematch -/

theorem postRematch_ok (db : Store) (gameId : GameId) (userId : UserId) (game : Game)
    (hfind : findById db gameId = some game) (hcomp : game.status = Status.Completed)
    (hnone : ¬ (game.rematch.requestedBy.isSome = true ∧ game.rematch.accepted = false)) :
    postRematch db gameId userId =
      (save db (requestRematch game userId),
        Response.jsonMessage 200 "Rematch requested" (requestRematch game userId)) := by
  unfold postRematch
  rw [hfind]
  simp only []
  rw [if_neg (not_not.2 hcomp), if_neg hnone]

theorem postRematchAccept_ok (db : Store) (gameId : GameId) (userId : UserId) (game : Game)
    (hfind : findById db gameId = some game)
    (hreq : game.rematch.requestedBy.isSome = true) (hacc : game.rematch.accepted = false)
    (hpart : userId = game.player1 ∨ userId = game.player2) :
    postRematchAccept db gameId userId =
      (save db (resetGame game),
        Response.jsonMessage 200 "Rematch accepted. Game has restarted." (resetGame game)) := by
  unfold postRematchAccept
  rw [hfind]
  simp only []
  have h1 : ¬ game.rematch.requestedBy.isNone = true := by
    cases hq : game.rematch.requestedBy with
    | none => rw [hq] at hreq; simp at hreq
    | some u => simp
  have h2 : ¬ game.rematch.accepted = true := by rw [hacc]; decide
  have h3 : ¬ ¬ userId ∈ [game.player1, game.player2] := by
    simp only [List.mem_cons, List.mem_singleton, List.not_mem_nil, or_false, not_not]
    exact hpart
  rw [if_neg h1, if_neg h2, if_neg h3]

/-- C10: for a Completed game with no pending rematch, a rematch request by any caller
followed by an acceptance by a participant succeeds and returns, and persists under the same
identifier, the same game (same `_id`, `player1`, `player2`) with no moves, winner unset,
status InProgress, `requestedBy` unset and `accepted` true; the request itself sets
`requestedBy` to the caller and `accepted` to false. -/
theorem rematch_request_accept_resets (db : Store) (gameId : GameId)
    (requester acceptor : UserId) (game : Game)
    (hfind : findById db gameId = some game) (hcomp : game.status = Status.Completed)
    (hnone : ¬ (game.rematch.requestedBy.isSome = true ∧ game.rematch.accepted = false))
    (hpart : acceptor = game.player1 ∨ acceptor = game.player2) :
    (postRematch db gameId requester).2 =
        Response.jsonMessage 200 "Rematch requested"
          { game with rematch := { requestedBy := some requester, accepted := false } } ∧
      (postRematchAccept (postRematch db gameId requester).1 gameId acceptor).2 =
        Response.jsonMessage 200 "Rematch accepted. Game has restarted."
          { _id := game._id, player1 := game.player1, player2 := game.player2, moves := [],
            winner := none, status := Status.InProgress,
            rematch := { requestedBy := none, accepted := true } } ∧
      findById (postRematchAccept (postRematch db gameId requester).1 gameId acceptor).1 gameId =
        some
          { _id := game._id, player1 := game.player1, player2 := game.player2, moves := [],
            winner := none, status := Status.InProgress,
            rematch := { requestedBy := none, accepted := true } } := by
  rw [postRematch_ok db gameId requester game hfind hcomp hnone]
  have hfind1 : findById (save db (requestRematch game requester)) gameId =
      some (requestRematch game requester) := findById_save hfind rfl
  rw [postRematchAccept_ok _ gameId acceptor (requestRematch game requester) hfind1 rfl rfl
    hpart]
  refine ⟨rfl, rfl, ?_⟩
  exact findById_save hfind1 rfl

/-- Witness for C10: the scenario game won by Player1; B requests the rematch, A accepts. -/
theorem rematch_request_accept_resets_witness :
    findById wonDb "g" = some wonGame ∧
      (postRematch wonDb "g" "B").2 =
        Response.jsonMessage 200 "Rematch requested"
          { wonGame with rematch := { requestedBy := some "B", accepted := false } } ∧
      (postRematchAccept (postRematch wonDb "g" "B").1 "g" "A").2 =
        Response.jsonMessage 200 "Rematch accepted. Game has restarted."
          { _id := "g", player1 := "A", player2 := "B", moves := [],
            winner := none, status := Status.InProgress,
            rematch := { requestedBy := none, accepted := true } } ∧
      findById (postRematchAccept (postRematch wonDb "g" "B").1 "g" "A").1 "g" =
        some
          { _id := "g", player1 := "A", player2 := "B", moves := [],
            winner := none, status := Status.InProgress,
            rematch := { requestedBy := none, accepted := true } } :=
  ⟨by decide,
    rematch_request_accept_resets wonDb "g" "B" "A" wonGame (by decide) (by decide)
      (by decide) (by decide)⟩

/-! ## Rematch request -/

theorem requestedDb_reachable : Reachable requestedDb :=
  Reachable.rematch "g" "B" wonDb_reachable

theorem restartedDb_reachable : Reachable restartedDb :=
  Reachable.accept "g" "A" requestedDb_reachable

theorem outsideDb_reachable : Reachable outsideDb :=
  Reachable.move "g" "A" 9 startedDb_reachable

theorem forkDb_reachable : Reachable forkDb :=
  Reachable.move "g" "B" 8 (Reachable.move "g" "A" 6 (Reachable.move "g" "B" 7
    (Reachable.move "g" "A" 3 (Reachable.move "g" "B" 5 (Reachable.move "g" "A" 2
      (Reachable.move "g" "B" 4 (Reachable.move "g" "A" 1 startedDb_reachable)))))))

theorem postRematch_eq (db : Store) (gameId : GameId) (userId : UserId) (game : Game)
    (hfind : findById db gameId = some game) :
    postRematch db gameId userId =
      if game.status ≠ Status.Completed then
        (db, Response.send 400 "Game is not completed")
      else if rematchPending game then
        (db, Response.send 400 "Rematch already requested")
      else
        (save db (requestRematch game userId),
          Response.jsonMessage 200 "Rematch requested" (requestRematch game userId)) := by
  unfold postRematch rematchPending
  rw [hfind]

/-- C11: on an existing game and for any caller, `postRematch` answers 400 "Game is not
completed" when the game is not Completed, else 400 "Rematch already requested" when
`requestedBy` is set and `accepted` is false, and else succeeds, setting `requestedBy` to the
caller and `accepted` to false and leaving `_id`, `moves`, `winner`, `status`, `player1` and
`player2` as they were; a second request after a successful one is refused. -/
theorem postRematch_check_order (db : Store) (gameId : GameId) (userId : UserId)
    (game : Game) (hfind : findById db gameId = some game) :
    (game.status ≠ Status.Completed →
        postRematch db gameId userId = (db, Response.send 400 "Game is not completed")) ∧
      (game.status = Status.Completed → rematchPending game →
        postRematch db gameId userId = (db, Response.send 400 "Rematch already requested")) ∧
      (game.status = Status.Completed → ¬ rematchPending game →
        ∃ game', postRematch db gameId userId =
            (save db game', Response.jsonMessage 200 "Rematch requested" game') ∧
          findById (save db game') gameId = some game' ∧
          game'.rematch = { requestedBy := some userId, accepted := false } ∧
          game'._id = game._id ∧ game'.moves = game.moves ∧ game'.winner = game.winner ∧
          game'.status = game.status ∧ game'.player1 = game.player1 ∧
          game'.player2 = game.player2 ∧
          ∀ second : UserId, postRematch (save db game') gameId second =
            (save db game', Response.send 400 "Rematch already requested")) := by
  rw [postRematch_eq db gameId userId game hfind]
  refine ⟨?_, ?_, ?_⟩
  · intro h1
    rw [if_pos h1]
  · intro h1 h2
    rw [if_neg (not_not.2 h1), if_pos h2]
  · intro h1 h2
    rw [if_neg (not_not.2 h1), if_neg h2]
    have hfind1 : findById (save db (requestRematch game userId)) gameId =
        some (requestRematch game userId) := findById_save hfind rfl
    refine ⟨_, rfl, hfind1, rfl, rfl, rfl, rfl, rfl, rfl, rfl, ?_⟩
    intro second
    rw [postRematch_eq _ gameId second _ hfind1]
    have hs : ¬ (requestRematch game userId).status ≠ Status.Completed := not_not.2 h1
    have hp : rematchPending (requestRematch game userId) := ⟨rfl, rfl⟩
    rw [if_neg hs, if_pos hp]

/-- Witness for C11: a request on the game in progress is refused, and on the won game a
second request by A after B's request is refused. -/
theorem postRematch_check_order_witness :
    postRematch fourMovesDb "g" "A" = (fourMovesDb, Response.send 400 "Game is not completed") ∧
      postRematch requestedDb "g" "A" =
        (requestedDb, Response.send 400 "Rematch already requested") :=
  ⟨(postRematch_check_order fourMovesDb "g" "A" fourMovesGame (by decide)).1 (by decide),
    (postRematch_check_order requestedDb "g" "A" requestedGame (by decide)).2.1
      (by decide) (by decide)⟩

/-! ## Rematch acceptance -/

theorem postRematchAccept_eq (db : Store) (gameId : GameId) (userId : UserId) (game : Game)
    (hfind : findById db gameId = some game) :
    postRematchAccept db gameId userId =
      if game.rematch.requestedBy.isNone = true then
        (db, Response.send 400 "No rematch requested")
      else if game.rematch.accepted = true then
        (db, Response.send 400 "Rematch already accepted")
      else if ¬ (userId = game.player1 ∨ userId = game.player2) then
        (db, Response.send 403 "You are not a participant in this game")
      else
        (save db (resetGame game),
          Response.jsonMessage 200 "Rematch accepted. Game has restarted." (resetGame game)) := by
  unfold postRematchAccept
  rw [hfind]
  simp only [List.mem_cons, List.mem_singleton, List.not_mem_nil, or_false]

/-- Counterexample for C12: on the won scenario game A requests the rematch and A itself
accepts it; the acceptance succeeds and the game is reset. -/
theorem self_accept_resets :
    Reachable wonDb ∧ findById wonDb "g" = some wonGame ∧
      wonGame.status = Status.Completed ∧
      wonGame.player1 = "A" ∧
      (postRematch wonDb "g" "A").2 =
        Response.jsonMessage 200 "Rematch requested" (requestRematch wonGame "A") ∧
      postRematchAccept (postRematch wonDb "g" "A").1 "g" "A" =
        ([restartedGame],
          Response.jsonMessage 200 "Rematch accepted. Game has restarted." restartedGame) :=
  ⟨wonDb_reachable, by decide⟩

/-- C12, amended: acceptance is open to both participants, the requester included. On a
game with a pending rematch requested by participant P, `postRematchAccept` called by P
succeeds, resets the game and persists the reset game; a caller who is neither `player1`
nor `player2` is answered 403 and the store is unchanged. -/
theorem accept_by_any_participant (db : Store) (gameId : GameId) (requester : UserId)
    (game : Game) (hfind : findById db gameId = some game)
    (hreq : game.rematch.requestedBy = some requester) (hacc : game.rematch.accepted = false)
    (hpart : requester = game.player1 ∨ requester = game.player2) :
    postRematchAccept db gameId requester =
        (save db (resetGame game),
          Response.jsonMessage 200 "Rematch accepted. Game has restarted." (resetGame game)) ∧
      findById (save db (resetGame game)) gameId = some (resetGame game) ∧
      (resetGame game).moves = [] ∧ (resetGame game).status = Status.InProgress ∧
      (∀ other : UserId, other ≠ game.player1 → other ≠ game.player2 →
        postRematchAccept db gameId other =
          (db, Response.send 403 "You are not a participant in this game")) := by
  have h1 : ¬ game.rematch.requestedBy.isNone = true := by rw [hreq]; simp
  have h2 : ¬ game.rematch.accepted = true := by rw [hacc]; decide
  refine ⟨?_, findById_save hfind rfl, rfl, rfl, ?_⟩
  · rw [postRematchAccept_eq db gameId requester game hfind, if_neg h1, if_neg h2,
      if_neg (not_not.2 hpart)]
  · intro other ho1 ho2
    have h3 : ¬ (other = game.player1 ∨ other = game.player2) := by
      rintro (h | h)
      · exact ho1 h
      · exact ho2 h
    rw [postRematchAccept_eq db gameId other game hfind, if_neg h1, if_neg h2, if_pos h3]

/-- Witness for C12, amended: B requested the rematch of the won game and B accepts it. -/
theorem accept_by_any_participant_witness :
    findById requestedDb "g" = some requestedGame ∧
      postRematchAccept requestedDb "g" "B" =
        (save requestedDb (resetGame requestedGame),
          Response.jsonMessage 200 "Rematch accepted. Game has restarted."
            (resetGame requestedGame)) :=
  ⟨by decide,
    (accept_by_any_participant requestedDb "g" "B" requestedGame (by decide) (by decide)
      (by decide) (by decide)).1⟩

/-! ## Range of positions -/

/-- Counterexample for C13: after `Start(A, B)` the move A:9 succeeds and the persisted move
list holds position 9, outside 0..8. -/
theorem position_outside_board :
    Reachable outsideDb ∧
      (postMove startedDb "g" "A" (JsValue.number 9)).2 = Response.json 200 outsideGame ∧
      outsideGame ∈ outsideDb ∧
      (⟨9, "Player1"⟩ : Move) ∈ outsideGame.moves ∧ ¬ inRange 9 :=
  ⟨outsideDb_reachable, by decide⟩

theorem postMove_positions (ok : Int → Prop) {db : Store} (gameId : GameId)
    (userId : UserId) (position : Int) (hok : ok position)
    (ih : ∀ g ∈ db, ∀ m ∈ g.moves, ok m.position) :
    ∀ g ∈ (postMove db gameId userId (JsValue.number position)).1, ∀ m ∈ g.moves, ok m.position := by
  intro g hg
  cases hf : findById db gameId with
  | none =>
    unfold postMove at hg
    rw [hf] at hg
    exact ih g hg
  | some game =>
    rw [postMove_eq db gameId userId position game hf] at hg
    have hsave : g ∈ save db (settle (pushMove game position)) →
        ∀ m ∈ g.moves, ok m.position := by
      intro hg
      rcases mem_save hg with hg | hg
      · intro m hm
        rw [hg, settle_moves] at hm
        unfold pushMove at hm
        rcases List.mem_append.1 hm with hm | hm
        · exact ih game (findById_some hf).1 m hm
        · rw [List.mem_singleton.1 hm]
          exact hok
      · exact ih g hg
    split_ifs at hg
    all_goals first | exact ih g hg | exact hsave hg

theorem postRematch_moves {db : Store} (gameId : GameId) (userId : UserId) (g : Game)
    (hg : g ∈ (postRematch db gameId userId).1) : ∃ g0 ∈ db, g.moves = g0.moves := by
  cases hf : findById db gameId with
  | none =>
    unfold postRematch at hg
    rw [hf] at hg
    exact ⟨g, hg, rfl⟩
  | some game =>
    rw [postRematch_eq db gameId userId game hf] at hg
    split_ifs at hg
    · exact ⟨g, hg, rfl⟩
    · exact ⟨g, hg, rfl⟩
    · rcases mem_save hg with hg | hg
      · exact ⟨game, (findById_some hf).1, by rw [hg]; rfl⟩
      · exact ⟨g, hg, rfl⟩

theorem postRematchAccept_moves {db : Store} (gameId : GameId) (userId : UserId) (g : Game)
    (hg : g ∈ (postRematchAccept db gameId userId).1) :
    g.moves = [] ∨ g ∈ db := by
  cases hf : findById db gameId with
  | none =>
    unfold postRematchAccept at hg
    rw [hf] at hg
    exact Or.inr hg
  | some game =>
    rw [postRematchAccept_eq db gameId userId game hf] at hg
    have hsave : g ∈ save db (resetGame game) → g.moves = [] ∨ g ∈ db := by
      intro hg
      rcases mem_save hg with hg | hg
      · left; rw [hg]; rfl
      · exact Or.inr hg
    split_ifs at hg
    all_goals first | exact Or.inr hg | exact hsave hg

theorem postStart_mem {db : Store} (newId : GameId) (userId : UserId)
    (opponentId : Option UserId) (g : Game)
    (hg : g ∈ (postStart db newId userId opponentId).1) :
    g ∈ db ∨ ∃ opp, g = newGame newId userId opp := by
  unfold postStart at hg
  cases opponentId with
  | none => exact Or.inl hg
  | some opp =>
    by_cases ho : opp = ""
    · simp only [ho, if_true] at hg
      exact Or.inl hg
    · simp only [ho, if_false, List.mem_append, List.mem_singleton] at hg
      rcases hg with hg | hg
      · exact Or.inl hg
      · exact Or.inr ⟨opp, hg⟩

theorem reachableWith_reachable {ok : Int → Prop} {db : Store} (h : ReachableWith ok db) :
    Reachable db := by
  induction h with
  | empty => exact Reachable.empty
  | start newId userId opponentId _ hfresh ih => exact Reachable.start newId userId opponentId ih hfresh
  | move gameId userId position _ _ ih => exact Reachable.move gameId userId position ih
  | rematch gameId userId _ ih => exact Reachable.rematch gameId userId ih
  | accept gameId userId _ ih => exact Reachable.accept gameId userId ih

/-- C13, amended: the move route records the position it is given without a range check.
In every store reached by calls whose move positions all satisfy `ok` (in particular: all
lie in 0..8), every move of every game has a position satisfying `ok`; such a store is
reachable in the unrestricted sense. -/
theorem positions_are_arguments (ok : Int → Prop) {db : Store} (h : ReachableWith ok db) :
    Reachable db ∧ ∀ g ∈ db, ∀ m ∈ g.moves, ok m.position := by
  refine ⟨reachableWith_reachable h, ?_⟩
  induction h with
  | empty => intro g hg; simp at hg
  | start newId userId opponentId _ _ ih =>
    intro g hg
    rcases postStart_mem newId userId opponentId g hg with hg | ⟨opp, hg⟩
    · exact ih g hg
    · intro m hm
      rw [hg] at hm
      simp [newGame] at hm
  | move gameId userId position _ hok ih =>
    exact postMove_positions ok gameId userId position hok ih
  | rematch gameId userId _ ih =>
    intro g hg m hm
    obtain ⟨g0, hg0, he⟩ := postRematch_moves gameId userId g hg
    rw [he] at hm
    exact ih g0 hg0 m hm
  | accept gameId userId _ ih =>
    intro g hg m hm
    rcases postRematchAccept_moves gameId userId g hg with hg | hg
    · rw [hg] at hm
      simp at hm
    · exact ih g hg m hm

theorem fourMovesDb_inRange : ReachableWith inRange fourMovesDb :=
  ReachableWith.move "g" "B" 5 (ReachableWith.move "g" "A" 1 (ReachableWith.move "g" "B" 4
    (ReachableWith.move "g" "A" 0
      (ReachableWith.start "g" "A" (some "B") ReachableWith.empty (by decide))
      (by decide)) (by decide)) (by decide)) (by decide)

/-- Witness for C13, amended: the scenario after four moves, all inside the board. -/
theorem positions_are_arguments_witness :
    fourMovesGame ∈ fourMovesDb ∧ ∀ m ∈ fourMovesGame.moves, inRange m.position :=
  ⟨by decide, (positions_are_arguments inRange fourMovesDb_inRange).2 fourMovesGame (by decide)⟩

/-! ## Rematch state of reachable games -/

/-- C14: in every game of a reachable store, `rematch.accepted = true` implies that
`rematch.requestedBy` is unset. -/
theorem accepted_implies_no_requester {db : Store} (hreach : Reachable db) (g : Game)
    (hg : g ∈ db) (hacc : g.rematch.accepted = true) : g.rematch.requestedBy = none :=
  (reachable_inv hreach g hg).accepted_clears hacc

/-- Witness for C14: the restarted scenario game has `accepted` true and no requester. -/
theorem accepted_implies_no_requester_witness :
    restartedGame ∈ restartedDb ∧ restartedGame.rematch.accepted = true ∧
      restartedGame.rematch.requestedBy = none :=
  ⟨by decide, by decide,
    accepted_implies_no_requester restartedDb_reachable restartedGame (by decide) (by decide)⟩

/-! ## Induction over the games of reachable stores -/

/-- A property of games that holds for a new game, is kept by a legal move on a running
game with the invariants, by a rematch request and by a reset, holds for every game of a
reachable store. -/
theorem reachable_games_induction (P : Game → Prop)
    (hnew : ∀ newId p1 p2, P (newGame newId p1 p2))
    (hmove : ∀ game position, GameInv game → P game → game.status = Status.InProgress →
      freeCell game position → P (settle (pushMove game position)))
    (hreq : ∀ game userId, P game → P (requestRematch game userId))
    (hreset : ∀ game, P (resetGame game))
    {db : Store} (h : Reachable db) : ∀ g ∈ db, P g := by
  induction h with
  | empty => intro g hg; simp at hg
  | start newId userId opponentId _ _ ih =>
    intro g hg
    rcases postStart_mem newId userId opponentId g hg with hg | ⟨opp, hg⟩
    · exact ih g hg
    · rw [hg]; exact hnew _ _ _
  | @move db gameId userId position hprev ih =>
    intro g hg
    cases hf : findById db gameId with
    | none =>
      unfold postMove at hg
      rw [hf] at hg
      exact ih g hg
    | some game =>
      rw [postMove_eq db gameId userId position game hf] at hg
      by_cases h1 : game.status = Status.Completed
      · rw [if_pos h1] at hg; exact ih g hg
      · rw [if_neg h1] at hg
        by_cases h2 : freeCell game position
        · rw [if_neg (not_not.2 h2)] at hg
          by_cases h3 : turnParticipant game = userId
          · rw [if_neg (not_not.2 h3)] at hg
            rcases mem_save hg with hg | hg
            · rw [hg]
              have hmem := (findById_some hf).1
              exact hmove game position (reachable_inv hprev game hmem) (ih game hmem)
                ((status_ne_completed game).1 h1) h2
            · exact ih g hg
          · rw [if_pos h3] at hg; exact ih g hg
        · rw [if_pos h2] at hg; exact ih g hg
  | @rematch db gameId userId _ ih =>
    intro g hg
    cases hf : findById db gameId with
    | none =>
      unfold postRematch at hg
      rw [hf] at hg
      exact ih g hg
    | some game =>
      rw [postRematch_eq db gameId userId game hf] at hg
      have hsave : g ∈ save db (requestRematch game userId) → P g := by
        intro hg
        rcases mem_save hg with hg | hg
        · rw [hg]; exact hreq game userId (ih game (findById_some hf).1)
        · exact ih g hg
      split_ifs at hg
      all_goals first | exact ih g hg | exact hsave hg
  | @accept db gameId userId _ ih =>
    intro g hg
    cases hf : findById db gameId with
    | none =>
      unfold postRematchAccept at hg
      rw [hf] at hg
      exact ih g hg
    | some game =>
      rw [postRematchAccept_eq db gameId userId game hf] at hg
      have hsave : g ∈ save db (resetGame game) → P g := by
        intro hg
        rcases mem_save hg with hg | hg
        · rw [hg]; exact hreset game
        · exact ih g hg
      split_ifs at hg
      all_goals first | exact ih g hg | exact hsave hg

/-! ## Outcome recorded by a game -/

theorem not_ownsLine_nil (r : String) (combo : Int × Int × Int) : ¬ ownsLine [] r combo := by
  intro h
  exact absurd h.1 (List.not_mem_nil _)

theorem OutcomeInv_of_empty (g : Game) (hm : g.moves = []) (hw : g.winner = none) :
    OutcomeInv g where
  one_role := by
    intro r1 _ c1 _ _ _ h1 _
    rw [hm] at h1
    exact absurd h1 (not_ownsLine_nil r1 c1)
  won := by intro w h; rw [hw] at h; exact absurd h (by simp)
  drawn := by intro h; rw [hw] at h; exact absurd h (by simp)

theorem OutcomeInv_requestRematch {game : Game} (userId : UserId) (h : OutcomeInv game) :
    OutcomeInv (requestRematch game userId) where
  one_role := h.one_role
  won := h.won
  drawn := h.drawn

/-- After a legal push on a running game every owner of a canonical line is the mover. -/
theorem owner_is_mover {game : Game} {position : Int} (inv : GameInv game)
    (hs : game.status = Status.InProgress) (r : String) (combo : Int × Int × Int)
    (hmem : combo ∈ winningCombinations)
    (hown : ownsLine (pushMove game position).moves r combo) : r = currentPlayer game := by
  by_contra hne
  have hold := ownsLine_before_push hne hown
  have hr : r ≠ "" := by
    rcases roles_valid inv.roles _ hold.1 with h | h <;> (simp only at h; rw [h]; decide)
  exact (checkWin_eq_none _ inv.nodup).1 (inv.running hs).2.1 combo hmem r hr hold

/-- A canonical line owned after a legal push on a running game passes through the pushed
position. -/
theorem owned_line_through_push {game : Game} {position : Int} (inv : GameInv game)
    (hs : game.status = Status.InProgress) (r : String) (hr : r ≠ "")
    (combo : Int × Int × Int) (hmem : combo ∈ winningCombinations)
    (hown : ownsLine (pushMove game position).moves r combo) : onLine position combo := by
  by_contra hoff
  unfold onLine at hoff
  have key : ∀ p : Int, position ≠ p → (⟨p, r⟩ : Move) ∈ (pushMove game position).moves →
      (⟨p, r⟩ : Move) ∈ game.moves := by
    intro p hp hin
    unfold pushMove at hin
    rcases List.mem_append.1 hin with hin | hin
    · exact hin
    · have := List.mem_singleton.1 hin
      exact absurd (congrArg Move.position this).symm hp
  have hold : ownsLine game.moves r combo :=
    ⟨key _ (fun h => hoff (Or.inl h)) hown.1,
      key _ (fun h => hoff (Or.inr (Or.inl h))) hown.2.1,
      key _ (fun h => hoff (Or.inr (Or.inr h))) hown.2.2⟩
  exact (checkWin_eq_none _ inv.nodup).1 (inv.running hs).2.1 combo hmem r hr hold

theorem OutcomeInv_move {game : Game} {position : Int} (inv : GameInv game)
    (hs : game.status = Status.InProgress) (hfree : freeCell game position) :
    OutcomeInv (settle (pushMove game position)) := by
  have hnd := pushMove_nodup inv.nodup hfree
  have hw : game.winner = none := (inv.running hs).1
  refine { one_role := ?_, won := ?_, drawn := ?_ }
  · intro r1 r2 c1 c2 h1 h2 ho1 ho2
    rw [settle_moves] at ho1 ho2
    rw [owner_is_mover inv hs r1 c1 h1 ho1, owner_is_mover inv hs r2 c2 h2 ho2]
  · intro w hwin hdraw
    rw [settle_moves]
    unfold settle at hwin
    simp only [] at hwin
    by_cases ht : truthy (checkWin (pushMove game position).moves) = true
    · simp only [ht, if_true] at hwin
      obtain ⟨hwne, combo, hmem, hown⟩ := checkWin_some_owns _ hnd w hwin
      have hwcp := owner_is_mover inv hs w combo hmem hown
      refine ⟨⟨position, currentPlayer game⟩, ?_, hwcp.symm, combo, hmem, hown, ?_⟩
      · unfold pushMove
        simp
      · exact owned_line_through_push inv hs w hwne combo hmem hown
    · by_cases h9 : (pushMove game position).moves.length = 9
      · simp only [ht, h9, if_true, if_false, Bool.false_eq_true, Option.some.injEq] at hwin
        exact absurd hwin.symm hdraw
      · simp only [ht, h9, if_false, Bool.false_eq_true] at hwin
        change game.winner = some w at hwin
        rw [hw] at hwin
        exact absurd hwin (by simp)
  · intro hwin
    rw [settle_moves]
    unfold settle at hwin
    simp only [] at hwin
    by_cases ht : truthy (checkWin (pushMove game position).moves) = true
    · simp only [ht, if_true] at hwin
      obtain ⟨_, combo, hmem, hown⟩ := checkWin_some_owns _ hnd "Draw" hwin
      have := owner_is_mover inv hs "Draw" combo hmem hown
      exact absurd this.symm (currentPlayer_ne_draw game)
    · by_cases h9 : (pushMove game position).moves.length = 9
      · exact h9
      · simp only [ht, h9, if_false, Bool.false_eq_true] at hwin
        change game.winner = some "Draw" at hwin
        rw [hw] at hwin
        exact absurd hwin (by simp)

theorem reachable_outcome {db : Store} (h : Reachable db) : ∀ g ∈ db, OutcomeInv g :=
  reachable_games_induction OutcomeInv
    (fun _ _ _ => OutcomeInv_of_empty _ rfl rfl)
    (fun _ _ inv _ hs hfree => OutcomeInv_move inv hs hfree)
    (fun _ userId hp => OutcomeInv_requestRematch userId hp)
    (fun _ => OutcomeInv_of_empty _ rfl rfl)
    h

/-! ## One winning role -/

theorem checkCombos_some_owns (moves : List Move) (hnd : (moves.map Move.position).Nodup)
    (l : List (Int × Int × Int)) (r : String)
    (h : checkCombos (buildBoard moves) l = some r) : ∃ combo ∈ l, ownsLine moves r combo := by
  obtain ⟨combo, hmem, hc, h1⟩ := checkCombos_eq_some _ _ _ h
  obtain ⟨r', _, h1', h2', h3'⟩ := (comboMatches_iff _ _).1 hc
  have : r' = r := by rw [h1'] at h1; exact Option.some.inj h1
  subst this
  exact ⟨combo, hmem, (buildBoard_eq_some moves hnd _ _).1 h1',
    (buildBoard_eq_some moves hnd _ _).1 h2', (buildBoard_eq_some moves hnd _ _).1 h3'⟩

theorem checkCombos_perm (board : Board) (l1 l2 : List (Int × Int × Int))
    (hp : List.Perm l1 l2) (h : checkCombos board l1 = none) : checkCombos board l2 = none := by
  rw [checkCombos_eq_none] at h ⊢
  intro combo hmem
  exact h combo (hp.mem_iff.2 hmem)

/-- C16: in every game of a reachable store at most one role owns a canonical line, and
`checkWin` gives the same result whatever the order in which the 8 combinations are
evaluated. -/
theorem one_winning_role_any_order {db : Store} (hreach : Reachable db) (g : Game)
    (hg : g ∈ db) :
    (∀ (r1 r2 : String) (c1 c2 : Int × Int × Int),
        c1 ∈ winningCombinations → c2 ∈ winningCombinations →
        ownsLine g.moves r1 c1 → ownsLine g.moves r2 c2 → r1 = r2) ∧
      (∀ order : List (Int × Int × Int), List.Perm order winningCombinations →
        checkCombos (buildBoard g.moves) order = checkWin g.moves) := by
  have out := reachable_outcome hreach g hg
  have hnd := (reachable_inv hreach g hg).nodup
  refine ⟨out.one_role, ?_⟩
  intro order hp
  unfold checkWin
  cases h1 : checkCombos (buildBoard g.moves) order with
  | none => exact (checkCombos_perm _ _ _ hp h1).symm
  | some r1 =>
    cases h2 : checkCombos (buildBoard g.moves) winningCombinations with
    | none =>
      have := checkCombos_perm _ _ _ hp.symm h2
      rw [h1] at this
      exact absurd this (by simp)
    | some r2 =>
      obtain ⟨c1, hm1, ho1⟩ := checkCombos_some_owns g.moves hnd order r1 h1
      obtain ⟨c2, hm2, ho2⟩ := checkCombos_some_owns g.moves hnd winningCombinations r2 h2
      rw [out.one_role r1 r2 c1 c2 (hp.mem_iff.1 hm1) hm2 ho1 ho2]

/-- Witness for C16: on the won scenario game the combinations evaluated in reverse order
give the same winner. -/
theorem one_winning_role_any_order_witness :
    wonGame ∈ wonDb ∧
      checkCombos (buildBoard wonGame.moves) winningCombinations.reverse =
        checkWin wonGame.moves :=
  ⟨by decide,
    (one_winning_role_any_order wonDb_reachable wonGame (by decide)).2
      winningCombinations.reverse (List.reverse_perm _)⟩

/-! ## The rematch protocol is gated on Completed -/

/-- C17: in every game of a reachable store a set `requestedBy` implies status Completed;
hence a successful `postRematchAccept` found the game Completed, and on a game in progress
`postRematchAccept` answers 400 "No rematch requested" and leaves the store, moves
included, as it was. -/
theorem rematch_gated_on_completed {db : Store} (hreach : Reachable db) (g : Game)
    (hg : g ∈ db) :
    (g.rematch.requestedBy.isSome = true → g.status = Status.Completed) ∧
      (∀ (gameId : GameId) (userId : UserId) (message : String) (game' : Game),
        findById db gameId = some g →
        (postRematchAccept db gameId userId).2 = Response.jsonMessage 200 message game' →
        g.status = Status.Completed ∧ game' = resetGame g) ∧
      (∀ (gameId : GameId) (userId : UserId),
        findById db gameId = some g → g.status = Status.InProgress →
        postRematchAccept db gameId userId = (db, Response.send 400 "No rematch requested")) := by
  have inv := reachable_inv hreach g hg
  refine ⟨inv.requested_completed, ?_, ?_⟩
  · intro gameId userId message game' hfind hok
    rw [postRematchAccept_eq db gameId userId g hfind] at hok
    by_cases h1 : g.rematch.requestedBy.isNone = true
    · rw [if_pos h1] at hok
      exact absurd hok (by simp)
    · have hsome : g.rematch.requestedBy.isSome = true := by
        cases hq : g.rematch.requestedBy with
        | none => rw [hq] at h1; simp at h1
        | some u => rfl
      refine ⟨inv.requested_completed hsome, ?_⟩
      rw [if_neg h1] at hok
      split_ifs at hok
      exact ((Response.jsonMessage.inj hok).2.2).symm
  · intro gameId userId hfind hs
    have h1 : g.rematch.requestedBy.isNone = true := by
      cases hq : g.rematch.requestedBy with
      | none => rfl
      | some u =>
        have := inv.requested_completed (by rw [hq]; rfl)
        rw [hs] at this
        exact absurd this (by decide)
    rw [postRematchAccept_eq db gameId userId g hfind, if_pos h1]

/-- Witness for C17: the scenario game with a pending request is Completed, and an
acceptance on the scenario game in progress is refused. -/
theorem rematch_gated_on_completed_witness :
    requestedGame ∈ requestedDb ∧ requestedGame.rematch.requestedBy.isSome = true ∧
      requestedGame.status = Status.Completed ∧
      postRematchAccept fourMovesDb "g" "A" =
        (fourMovesDb, Response.send 400 "No rematch requested") :=
  ⟨by decide, by decide,
    (rematch_gated_on_completed requestedDb_reachable requestedGame (by decide)).1 (by decide),
    (rematch_gated_on_completed fourMovesDb_reachable fourMovesGame (by decide)).2.2
      "g" "A" (by decide) (by decide)⟩

/-- C18: on a reachable store `postRematchAccept` never answers "Rematch already accepted":
when `accepted` is true `requestedBy` is unset, so the earlier check answers "No rematch
requested". -/
theorem accept_never_conflict {db : Store} (hreach : Reachable db) (gameId : GameId)
    (userId : UserId) :
    (∀ status : Nat, (postRematchAccept db gameId userId).2 ≠
        Response.send status "Rematch already accepted") ∧
      (∀ g, findById db gameId = some g → g.rematch.accepted = true →
        postRematchAccept db gameId userId = (db, Response.send 400 "No rematch requested")) := by
  cases hf : findById db gameId with
  | none =>
    refine ⟨?_, by intro g h; exact absurd h (by simp)⟩
    intro status
    unfold postRematchAccept
    rw [hf]
    simp
  | some game =>
    have inv := reachable_inv hreach game (findById_some hf).1
    rw [postRematchAccept_eq db gameId userId game hf]
    constructor
    · intro status
      by_cases h1 : game.rematch.requestedBy.isNone = true
      · rw [if_pos h1]
        simp
      · have h2 : ¬ game.rematch.accepted = true := by
          intro hacc
          rw [inv.accepted_clears hacc] at h1
          exact h1 rfl
        rw [if_neg h1, if_neg h2]
        split_ifs <;> simp
    · intro g hg hacc
      have hgg : game = g := Option.some.inj hg
      subst hgg
      have h1 : game.rematch.requestedBy.isNone = true := by
        rw [inv.accepted_clears hacc]; rfl
      rw [if_pos h1]

/-- Witness for C18: on the restarted scenario game, whose `accepted` is true, an acceptance
is answered "No rematch requested". -/
theorem accept_never_conflict_witness :
    findById restartedDb "g" = some restartedGame ∧ restartedGame.rematch.accepted = true ∧
      postRematchAccept restartedDb "g" "B" =
        (restartedDb, Response.send 400 "No rematch requested") :=
  ⟨by decide, by decide,
    (accept_never_conflict restartedDb_reachable "g" "B").2 restartedGame (by decide)
      (by decide)⟩

/-! ## The winner and the last move -/

theorem roleAt_player1 (i : Nat) (h : roleAt i = "Player1") : i % 2 = 0 := by
  unfold roleAt at h
  by_cases hi : i % 2 = 0
  · exact hi
  · rw [if_neg hi] at h
    exact absurd h (by decide)

theorem roleAt_player2 (i : Nat) (h : roleAt i = "Player2") : i % 2 = 1 := by
  unfold roleAt at h
  by_cases hi : i % 2 = 0
  · rw [if_pos hi] at h
    exact absurd h (by decide)
  · omega

/-- C19: in every Completed game of a reachable store the winner is set; when it is
Player1 or Player2 it is the role of the last move, the last move's position lies on a
canonical line owned by that role, and the move count is odd for Player1 and even for
Player2; when it is Draw the move count is 9. -/
theorem winner_matches_last_move {db : Store} (hreach : Reachable db) (g : Game)
    (hg : g ∈ db) (hc : g.status = Status.Completed) :
    ∃ w, g.winner = some w ∧
      ((w = "Player1" ∨ w = "Player2") →
        ∃ last, g.moves.getLast? = some last ∧ last.player = w ∧
          (∃ combo ∈ winningCombinations, ownsLine g.moves w combo ∧
            onLine last.position combo) ∧
          (w = "Player1" → g.moves.length % 2 = 1) ∧
          (w = "Player2" → g.moves.length % 2 = 0)) ∧
      (w = "Draw" → g.moves.length = 9) := by
  have inv := reachable_inv hreach g hg
  have out := reachable_outcome hreach g hg
  obtain ⟨w, hw, _⟩ := inv.finished hc
  refine ⟨w, hw, ?_, ?_⟩
  · intro hrole
    have hnd : w ≠ "Draw" := by
      rcases hrole with h | h <;> (rw [h]; decide)
    obtain ⟨last, hlast, hpl, hline⟩ := out.won w hw hnd
    have hidx : g.moves[g.moves.length - 1]? = some last := by
      rw [← List.getLast?_eq_getElem?]; exact hlast
    have hpos : 0 < g.moves.length := by
      cases hm : g.moves with
      | nil => rw [hm] at hlast; simp at hlast
      | cons x xs => simp
    have hr := inv.roles _ last hidx
    rw [hpl] at hr
    refine ⟨last, hlast, hpl, hline, ?_, ?_⟩
    · intro h1
      have := roleAt_player1 _ (by rw [← hr, h1])
      omega
    · intro h2
      have := roleAt_player2 _ (by rw [← hr, h2])
      omega
  · intro hd
    rw [hd] at hw
    exact out.drawn hw

/-- Witness for C19: the won scenario game has winner Player1, five moves, and its last
move A:2 lies on the row 0-1-2 owned by Player1. -/
theorem winner_matches_last_move_witness :
    wonGame ∈ wonDb ∧ wonGame.status = Status.Completed ∧
      ∃ w, wonGame.winner = some w ∧
        ((w = "Player1" ∨ w = "Player2") →
          ∃ last, wonGame.moves.getLast? = some last ∧ last.player = w ∧
            (∃ combo ∈ winningCombinations, ownsLine wonGame.moves w combo ∧
              onLine last.position combo) ∧
            (w = "Player1" → wonGame.moves.length % 2 = 1) ∧
            (w = "Player2" → wonGame.moves.length % 2 = 0)) ∧
        (w = "Draw" → wonGame.moves.length = 9) :=
  ⟨by decide, by decide,
    winner_matches_last_move wonDb_reachable wonGame (by decide) (by decide)⟩

/-! ## Lines completed by one move -/

/-- Counterexample for C15: after A:1, B:4, A:2, B:5, A:3, B:7, A:6, B:8 (all inside the
board, game in progress) the move A:0 succeeds and newly completes both the row 0-1-2 and
the column 0-3-6. -/
theorem move_completes_two_lines :
    Reachable forkDb ∧ findById forkDb "g" = some forkGame ∧
      forkGame.status = Status.InProgress ∧ (∀ m ∈ forkGame.moves, inRange m.position) ∧
      inRange 0 ∧ (postMove forkDb "g" "A" (JsValue.number 0)).2 = Response.json 200 forkWonGame ∧
      (0, 1, 2) ∈ winningCombinations ∧ (0, 3, 6) ∈ winningCombinations ∧
      ((0, 1, 2) : Int × Int × Int) ≠ (0, 3, 6) ∧
      newlyCompleted forkGame.moves forkWonGame.moves "Player1" (0, 1, 2) ∧
      newlyCompleted forkGame.moves forkWonGame.moves "Player1" (0, 3, 6) ∧
      (newlyCompletedLines forkGame.moves forkWonGame.moves "Player1").length = 2 :=
  ⟨forkDb_reachable, by decide⟩

theorem roleAt_add_two (i : Nat) : roleAt (i + 2) = roleAt i := by
  unfold roleAt
  simp [Nat.add_mod]

/-- With roles by parity, one role holds at most half of the moves, rounded up. -/
theorem role_count_le (r : String) : ∀ (moves : List Move),
    (∀ (i : Nat) (m : Move), moves[i]? = some m → m.player = roleAt i) →
    (moves.filter (fun m => decide (m.player = r))).length ≤ (moves.length + 1) / 2
  | [], _ => by simp
  | [a], _ => by
    have := List.length_filter_le (fun m => decide (m.player = r)) [a]
    simpa using this
  | a :: b :: rest, h => by
    have ha : a.player = "Player1" := h 0 a rfl
    have hb : b.player = "Player2" := h 1 b (by simp)
    have hrest : ∀ (i : Nat) (m : Move), rest[i]? = some m → m.player = roleAt i := by
      intro i m hm
      rw [← roleAt_add_two i]
      exact h (i + 2) m (by simpa using hm)
    have ih := role_count_le r rest hrest
    have hnot : ¬ (a.player = r ∧ b.player = r) := by
      rintro ⟨h1, h2⟩
      rw [ha] at h1
      rw [hb, ← h1] at h2
      exact absurd h2 (by decide)
    simp only [List.filter_cons]
    split_ifs with h1 h2 h2
    · exact absurd ⟨of_decide_eq_true h1, of_decide_eq_true h2⟩ hnot
    all_goals (simp only [List.length_cons]; omega)

theorem mem_cellsPlayedBy (moves : List Move) (r : String) (p : Int)
    (h : (⟨p, r⟩ : Move) ∈ moves) : p ∈ cellsPlayedBy moves r := by
  unfold cellsPlayedBy
  exact List.mem_map.2 ⟨⟨p, r⟩, List.mem_filter.2 ⟨h, by simp⟩, rfl⟩

theorem ownsLine_cells (moves : List Move) (r : String) (combo : Int × Int × Int)
    (h : ownsLine moves r combo) : ∀ p ∈ cellsOf combo, p ∈ cellsPlayedBy moves r := by
  intro p hp
  unfold cellsOf at hp
  simp only [List.mem_cons, List.mem_singleton, List.not_mem_nil, or_false] at hp
  rcases hp with hp | hp | hp <;> rw [hp]
  · exact mem_cellsPlayedBy moves r _ h.1
  · exact mem_cellsPlayedBy moves r _ h.2.1
  · exact mem_cellsPlayedBy moves r _ h.2.2

set_option maxRecDepth 100000 in
/-- Three different canonical lines cover at least six cells. -/
theorem three_lines_cover_six :
    ∀ c1 ∈ winningCombinations, ∀ c2 ∈ winningCombinations, ∀ c3 ∈ winningCombinations,
      c1 ≠ c2 → c1 ≠ c3 → c2 ≠ c3 →
      6 ≤ ((cellsOf c1 ++ cellsOf c2 ++ cellsOf c3).dedup).length := by
  decide

/-- With roles by parity and at most 9 moves, one role owns at most two canonical lines. -/
theorem owned_lines_le_two (moves : List Move) (r : String)
    (hroles : ∀ (i : Nat) (m : Move), moves[i]? = some m → m.player = roleAt i)
    (hlen : moves.length ≤ 9) (l : List (Int × Int × Int)) (hl : l.Nodup)
    (hmem : ∀ c ∈ l, c ∈ winningCombinations ∧ ownsLine moves r c) : l.length ≤ 2 := by
  rcases l with _ | ⟨a, _ | ⟨b, _ | ⟨c, rest⟩⟩⟩
  · simp
  · simp
  · simp
  · exfalso
    have hab : a ≠ b := by
      intro h; rw [h] at hl; simp at hl
    have hac : a ≠ c := by
      intro h; rw [h] at hl; simp at hl
    have hbc : b ≠ c := by
      intro h; rw [h] at hl; simp at hl
    have ha := hmem a (by simp)
    have hb := hmem b (by simp)
    have hc := hmem c (by simp)
    have h6 := three_lines_cover_six a ha.1 b hb.1 c hc.1 hab hac hbc
    have hsub : (cellsOf a ++ cellsOf b ++ cellsOf c).dedup ⊆ cellsPlayedBy moves r := by
      intro p hp
      rw [List.mem_dedup] at hp
      rcases List.mem_append.1 hp with hp | hp
      · rcases List.mem_append.1 hp with hp | hp
        · exact ownsLine_cells moves r a ha.2 p hp
        · exact ownsLine_cells moves r b hb.2 p hp
      · exact ownsLine_cells moves r c hc.2 p hp
    have hle := (List.subperm_of_subset (List.nodup_dedup _) hsub).length_le
    have hcount : (cellsPlayedBy moves r).length ≤ 5 := by
      unfold cellsPlayedBy
      rw [List.length_map]
      have := role_count_le r moves hroles
      omega
    omega

/-- C15, amended: in a reachable store, for an in-progress game and a successful move, the
appended move newly completes at most two of the 8 canonical lines for any role. -/
theorem move_completes_at_most_two {db : Store} (hreach : Reachable db) (gameId : GameId)
    (userId : UserId) (position : Int) (game game' : Game)
    (hfind : findById db gameId = some game) (hprog : game.status = Status.InProgress)
    (hok : (postMove db gameId userId (JsValue.number position)).2 = Response.json 200 game') (r : String) :
    (newlyCompletedLines game.moves game'.moves r).length ≤ 2 := by
  obtain ⟨_, hfree, _, hgame', _⟩ := postMove_ok hfind hok
  have inv := reachable_inv hreach game (findById_some hfind).1
  have inv' := GameInv_move inv hprog hfree
  rw [← hgame'] at inv'
  refine owned_lines_le_two game'.moves r inv'.roles inv'.length_le _ ?_ ?_
  · exact List.Nodup.filter _ (by decide)
  · intro c hc
    unfold newlyCompletedLines at hc
    have := List.mem_filter.1 hc
    exact ⟨this.1, (of_decide_eq_true this.2).1⟩

/-- Witness for C15, amended: the ninth move A:0 of the fork scenario completes two lines,
not more. -/
theorem move_completes_at_most_two_witness :
    (postMove forkDb "g" "A" (JsValue.number 0)).2 = Response.json 200 forkWonGame ∧
      (newlyCompletedLines forkGame.moves forkWonGame.moves "Player1").length ≤ 2 :=
  ⟨by decide,
    move_completes_at_most_two forkDb_reachable "g" "A" 0 forkGame forkWonGame
      (by decide) (by decide) (by decide) "Player1"⟩

end TicTacToe
